import Mathlib

/-!
# Verification of `aodnfetcher.fetcherlib`

A shallow embedding, in Lean 4, of the artifact-resolution and
content-addressed-caching logic of `aodnfetcher/fetcherlib.py`, together with
theorems settling the specification claims about that module.

Conventions used throughout:

* Python strings are modelled as Lean `String`s; string manipulation is done by
  structural functions over `String.data` (`List Char`) so that every
  definition evaluates by kernel reduction.  Python compares strings by code
  points, which coincides with lexicographic comparison of the underlying
  `Char` lists.
* Python exceptions become explicit `Except`/sum results (`PyErr` below).
* The SHA-256 digest is an abstract function parameter `H : List Nat → String`
  (file contents are byte lists); the remote object store and HTTP server are
  abstract inputs.
-/

deriving instance DecidableEq for Except

namespace Aodnfetcher

/-! ## Python string primitives -/

/-- `str.split(sep)` for a single-character separator, on char lists:
`"".split('/') = ['']`, `"a//b".split('/') = ['a', '', 'b']`. -/
def splitOnChar (sep : Char) : List Char → List (List Char)
  | [] => [[]]
  | c :: cs =>
    let r := splitOnChar sep cs
    if c = sep then [] :: r
    else
      match r with
      | h :: t => (c :: h) :: t
      | [] => [[c]]

/-- Lexicographic `≤` on char lists by code point: the semantics of Python's
`str.__le__` (and of the default ordering used by Python's `sorted`). -/
def lexLe : List Char → List Char → Bool
  | [], _ => true
  | _ :: _, [] => false
  | a :: as, b :: bs =>
    if a < b then true
    else if b < a then false
    else lexLe as bs

/-- Python `s1 <= s2` on strings. -/
def pyStrLe (s t : String) : Bool := lexLe s.data t.data

/-- `str.lstrip('/')`: remove every leading occurrence of the character. -/
def pyLstrip (c : Char) (s : String) : String := String.mk (s.data.dropWhile (· = c))

/-- `str.split(sep)` on strings, single-character separator. -/
def pySplit (c : Char) (s : String) : List String := (splitOnChar c s.data).map String.mk

/-- Whether a char list ends with the given suffix. -/
def endsWithList (s suf : List Char) : Bool := List.isPrefixOf suf.reverse s.reverse

/-- Python truthiness of an optional string: `None` and `''` are falsy. -/
def truthyOptStr : Option String → Bool
  | none => false
  | some s => !(s.data = [])

/-- `str(list_of_strings)` as Python prints it, e.g. `['a', 'b']`
(strings assumed to need no escaping). -/
def pyStrList (l : List String) : String :=
  "[" ++ String.mk (List.intercalate (", ".data) (l.map fun s => ("'" ++ s ++ "'").data)) ++ "]"

/-- Digit run with single underscores between digits: the integer-literal body
accepted by Python 3's `int()` (ASCII model).  State: accumulator and whether
the previous character was a digit. -/
def pyIntDigits : List Char → Nat → Bool → Option Nat
  | [], acc, true => some acc
  | [], _, false => none
  | c :: cs, acc, lastDigit =>
    if c.isDigit then pyIntDigits cs (acc * 10 + (c.toNat - 48)) true
    else if c = '_' then
      if lastDigit then pyIntDigits cs acc false else none
    else none

/-- Characters stripped by `int()` before parsing (ASCII whitespace model). -/
def isPyIntSpace (c : Char) : Bool :=
  c = ' ' || c = '\t' || c = '\n' || c = '\r' || c = '\x0b' || c = '\x0c'

/-- Python `int(s)` on a string (ASCII model): strip whitespace, optional
sign, then a digit run with single underscores; `none` models `ValueError`. -/
def pyInt (s : String) : Option Int :=
  let core := (s.data.dropWhile isPyIntSpace).reverse.dropWhile isPyIntSpace |>.reverse
  match core with
  | '+' :: rest => (pyIntDigits rest 0 false).map fun n => (n : Int)
  | '-' :: rest => (pyIntDigits rest 0 false).map fun n => -(n : Int)
  | rest => (pyIntDigits rest 0 false).map fun n => (n : Int)

/-! ## Exceptions

`PyErr` collects the exceptions that the embedded code can raise.
`ClientErrorInfo` models a `botocore.exceptions.ClientError` (every error
response from the object store, authorization failures and `NoSuchKey` alike,
is such a `ClientError`; non-`ClientError` exceptions are `otherError`). -/

structure ClientErrorInfo where
  /-- `e.response['Error']['Code']` -/
  code : String
  /-- `e.__class__.__name__` -/
  className : String
  /-- `str(e)` -/
  message : String
  deriving DecidableEq, Repr

inductive PyErr where
  /-- `KeyResolutionError(reason_code, message)` -/
  | keyResolution (reasonCode message : String)
  /-- `AuthenticationError(message)` -/
  | authenticationError (message : String)
  /-- `InvalidArtifactError(message)` -/
  | invalidArtifact (message : String)
  /-- `ValueError(message)` -/
  | valueError (message : String)
  /-- `AttributeError` — e.g. calling `.groupdict()` on a failed `re.match` -/
  | attributeError
  /-- `IndexError` — e.g. `[-1]` on an empty list -/
  | indexError
  /-- `TypeError` — e.g. `os.path.exists(None)` -/
  | typeError
  /-- a propagated `botocore.exceptions.ClientError` -/
  | clientError (info : ClientErrorInfo)
  /-- any other exception, propagated unchanged -/
  | otherError (description : String)
  deriving DecidableEq, Repr

/-! ## The fetcher factory (`fetcherlib.fetcher`)

The factory dispatches on the scheme of the parsed artifact URL.  The embedding
takes the already-parsed scheme (what `urlparse(artifact).scheme` returned) and
the original artifact string (used in the error message). -/

/-- The strategy variants the factory can construct. -/
inductive FetcherKind where
  | jenkinsS3       -- Job-Artifact
  | schemaBackupS3  -- Timestamped-Backup
  | http            -- HTTP(S)
  | s3              -- Object-Store
  | s3Pref          -- Prefix-Latest (`s3prefix` scheme)
  | localFile       -- Local-File
  deriving DecidableEq, Repr

/-- `fetcherlib.fetcher`: scheme dispatch (lines 87–100).  An empty scheme is
falsy in Python, so it selects the local-file strategy together with `file`. -/
def fetcher (scheme : String) (artifact : String) : Except PyErr FetcherKind :=
  if scheme = "jenkins" then .ok .jenkinsS3
  else if scheme = "schemabackup" then .ok .schemaBackupS3
  else if scheme = "http" ∨ scheme = "https" then .ok .http
  else if scheme = "s3" then .ok .s3
  else if scheme = "s3prefix" then .ok .s3Pref
  else if scheme = "file" ∨ scheme = "" then .ok .localFile
  else .error (.invalidArtifact ("unable to find a fetcher for artifact '" ++ artifact ++ "'"))

/-! ## `S3Fetcher._get_object` (lines 511–515)

The remote call either returns an object, raises a `ClientError` (this
includes authorization failures *and* `NoSuchKey`/not-found responses — all
error responses from the store are `ClientError`s), or raises some other
exception.  The code catches `botocore.exceptions.ClientError` and re-raises
it as `AuthenticationError` with the original class name and message. -/

inductive RemoteGetResult (α : Type) where
  | ok (obj : α)
  | clientError (info : ClientErrorInfo)
  | otherError (description : String)

/-- `S3Fetcher._get_object`, given the outcome of `s3_client.get_object`. -/
def s3GetObject {α : Type} (remote : RemoteGetResult α) : Except PyErr α :=
  match remote with
  | .ok o => .ok o
  | .clientError e =>
      .error (.authenticationError
        ("S3 authentication failed. " ++ e.className ++ ": " ++ e.message))
  | .otherError d => .error (.otherError d)

/-! ## `JenkinsS3Fetcher` key resolution (lines 596–640)

`key_parse_pattern` is the anchored regex
`^jobs/(?P<job_name>[^/]+)/(?P<build_number>[^/]+)/(?P<basename>.*)$`.
Its semantics on a string: the string starts with `jobs/`, the next two
`/`-separated segments are non-empty (and, being segments, slash-free), and
the remainder is matched by `.*$` — i.e. it contains no newline except
possibly a single trailing one, which `$` lets the match stop before.
The greedy `[^/]+` groups cut exactly at the first two slashes, so the parse
is the one computed here. -/

/-- The characters captured by `.*` when the regex continues with `$`:
`.` does not match a newline, and `$` matches at the end of the string or
just before a single trailing newline.  `none` means the regex fails here. -/
def dotStarDollar (l : List Char) : Option (List Char) :=
  if !(l.contains '\n') then some l
  else if endsWithList l ['\n'] && !(l.dropLast.contains '\n') then some l.dropLast
  else none

/-- The group dictionary produced by `key_parse_pattern.match(key).groupdict()`. -/
structure JenkinsParse where
  job_name : String
  build_number : String
  basename : String
  deriving DecidableEq, Repr

/-- `JenkinsS3Fetcher.key_parse_pattern.match key`, as an `Option`:
`none` models a failed match (on which `.groupdict()` raises
`AttributeError`). -/
def keyParsePattern (key : String) : Option JenkinsParse :=
  if List.isPrefixOf "jobs/".data key.data then
    match splitOnChar '/' (key.data.drop 5) with
    | j :: b :: r :: rs =>
      if j.isEmpty || b.isEmpty then none
      else
        match dotStarDollar (List.intercalate ['/'] (r :: rs)) with
        | some base => some ⟨String.mk j, String.mk b, String.mk base⟩
        | none => none
    | _ => none
  else none

/-- Semantics of `re.match(r'^.*\.war$', s)` — the default `filename_pattern`.
`.*` cannot cross a newline and `$` also matches just before a single trailing
newline, so the pattern accepts exactly the newline-free strings ending in
`.war`, plus those same strings with one extra trailing newline. -/
def matchesDefaultWarPattern (s : String) : Bool :=
  (endsWithList s.data ".war".data && !((s.data.take (s.data.length - 4)).contains '\n'))
  || (endsWithList s.data ".war\n".data && !((s.data.take (s.data.length - 5)).contains '\n'))

/-- Semantics of `re.match('^app', s)`: an anchored literal matches exactly
the strings starting with it. -/
def matchesCaretApp (s : String) : Bool := List.isPrefixOf "app".data s.data

/-- Left-to-right traversal that stops at the first raised exception: the
evaluation order of a Python loop (or of materialising a generator). -/
def exceptMap {α β : Type} (f : α → Except PyErr β) : List α → Except PyErr (List β)
  | [] => .ok []
  | x :: xs =>
    match f x with
    | .error e => .error e
    | .ok y =>
      match exceptMap f xs with
      | .error e => .error e
      | .ok ys => .ok (y :: ys)

/-- Materialising one element of the `matching_keys` generator:
`self.key_parse_pattern.match(a['Key']).groupdict()`, which raises
`AttributeError` when the structural match failed. -/
def parseStep (k : String) : Except PyErr JenkinsParse :=
  match keyParsePattern k with
  | some p => .ok p
  | none => .error .attributeError

def intStep (p : JenkinsParse) : Except PyErr (Int × JenkinsParse) :=
  match pyInt p.build_number with
  | some n => .ok (n, p)
  | none =>
      .error (.valueError ("invalid literal for int() with base 10: '" ++ p.build_number ++ "'"))

/-- `JenkinsS3Fetcher._get_matching_builds` (lines 636–640).

`pat` is the match semantics of the configured `filename_pattern`, applied —
as in the source — to the **full key** `a['Key']`, not to its basename.
`sorted(...)` first materialises the generator (structurally parsing every
pattern-matching key via `parseStep`), then computes the sort key
`int(p['build_number'])` for each element (`intStep`), then sorts stably and
ascending — which `List.insertionSort` with a total `≤` also is. -/
def getMatchingBuilds (pat : String → Bool) (keys : List String) :
    Except PyErr (List JenkinsParse) :=
  match exceptMap parseStep (keys.filter pat) with
  | .error e => .error e
  | .ok parsed =>
    match exceptMap intStep parsed with
    | .error e => .error e
    | .ok keyed =>
        Except.ok ((List.insertionSort (fun x y : Int × JenkinsParse => x.1 ≤ y.1) keyed).map
          Prod.snd)

/-- `JenkinsS3Fetcher._get_key` (lines 623–634).  `keys` is the full paginated
listing under `jobs/<job_name>`; `patStr` is the `filename_pattern` text used
in the error message and `pat` its match semantics.  Only `IndexError` (an
empty match list) is converted to `NO_MATCHING_BUILDS`; `AttributeError` and
`ValueError` from `_get_matching_builds` propagate. -/
def jenkinsGetKey (jobName patStr : String) (pat : String → Bool) (keys : List String) :
    Except PyErr String :=
  if keys.isEmpty then
    .error (.keyResolution "NO_RESULTS"
      ("job '" ++ jobName ++ "' was invalid or returned no builds"))
  else
    match getMatchingBuilds pat keys with
    | .error e => .error e
    | .ok [] =>
        .error (.keyResolution "NO_MATCHING_BUILDS"
          ("no builds found for '" ++ jobName ++ "' matching '" ++ patStr ++ "'"))
    | .ok (p :: ps) =>
        let latest := (p :: ps).getLast (List.cons_ne_nil p ps)
        .ok ("jobs/" ++ latest.job_name ++ "/" ++ latest.build_number ++ "/" ++ latest.basename)

/-- Modelled from the spec: the filtering rule as the claim states it — keep
the keys that match the structural pattern and whose **basename** matches the
filename pattern.  Used only to compare the claim's wording with the code's
actual filter (which applies the pattern to the full key). -/
def claimKeepsKey (pat : String → Bool) (k : String) : Bool :=
  match keyParsePattern k with
  | some p => pat p.basename
  | none => false

instance : Inhabited JenkinsParse := ⟨⟨"", "", ""⟩⟩

/-- The structural parse of a key, defaulting to the empty parse; meaningful
only for keys the structural pattern accepts. -/
def parseOf (k : String) : JenkinsParse := (keyParsePattern k).getD default

/-- The numeric build number of a parse, defaulting to `0`; meaningful only
when `pyInt` accepts the build-number string. -/
def buildInt (p : JenkinsParse) : Int := (pyInt p.build_number).getD 0

/-! ## `SchemaBackupS3Fetcher` (lines 699–766) -/

/-- The `__init__` component check (lines 703–706): `lstrip('/')` then
`split('/')` must yield exactly three components (the code does **not**
require them to be non-empty); they become host, database and schema. -/
def schemaBackupComponents (path : String) : Except PyErr (String × String × String) :=
  match pySplit '/' (pyLstrip '/' path) with
  | [h, d, s] => .ok (h, d, s)
  | _ => .error (.valueError "URL must be in the format: schemabackup://bucket/host/database/schema")

/-- Python's `sorted` on strings: stable ascending sort by code-point
lexicographic order. -/
def pySorted (l : List String) : List String :=
  List.insertionSort (fun s t => pyStrLe s t = true) l

/-- The `TIMESTAMP_NOT_FOUND` message (lines 748–751); `{c}` formats the
candidate list the way Python prints a list of strings. -/
def timestampNotFoundMsg (t b : String) (c : List String) : String :=
  "timestamp '" ++ t ++ "' not found in bucket '" ++ b ++
    "'. Available timestamp candidates: " ++ pyStrList c

/-- The timestamp-selection block of `_get_key` (lines 742–751), operating on
the already-sorted candidate list.  `all_timestamps[-1]` on an empty list
would raise `IndexError`; the caller guards against that. -/
def selectTimestamp (requested bucket : String) (allTimestamps : List String) :
    Except PyErr String :=
  if requested = "LATEST" then
    match allTimestamps.getLast? with
    | some m => .ok m
    | none => .error .indexError
  else if requested ∈ allTimestamps then .ok requested
  else .error (.keyResolution "TIMESTAMP_NOT_FOUND"
    (timestampNotFoundMsg requested bucket allTimestamps))

/-- The listing results `SchemaBackupS3Fetcher._get_key` consumes, already
`relpath`-ed against their prefixes, plus the outcome of the final
`get_object` probe (`none` = success, `some e` = `ClientError e`). -/
structure SchemaBackupEnv where
  hosts : List String
  rawTimestamps : List String
  probe : String → Option ClientErrorInfo

/-- The key `_get_key` constructs under the `backups/<host>/pgsql/` base
prefix: `posixpath.join(base_prefix, selected, database, schema + '.dump')`
(components assumed relative, as produced by the listing). -/
def schemaBackupKeyName (host sel database schema : String) : String :=
  "backups/" ++ host ++ "/pgsql/" ++ sel ++ "/" ++ database ++ "/" ++ schema ++ ".dump"

/-- `SchemaBackupS3Fetcher._get_key` (lines 716–766): host check, timestamp
enumeration and sort, timestamp selection, key construction and probe.  A
`NoSuchKey` probe error becomes `SCHEMA_NOT_FOUND` (its message uses the
*requested* timestamp); any other `ClientError` propagates unchanged. -/
def schemaBackupGetKey (bucket host database schema requested : String)
    (env : SchemaBackupEnv) : Except PyErr String :=
  if host ∈ env.hosts then
    if (pySorted env.rawTimestamps).isEmpty then
      .error (.keyResolution "NO_TIMESTAMPS"
        ("no candidate timestamps found in bucket '" ++ bucket ++ "'."))
    else
      match selectTimestamp requested bucket (pySorted env.rawTimestamps) with
      | .error e => .error e
      | .ok sel =>
          match env.probe (schemaBackupKeyName host sel database schema) with
          | none => .ok (schemaBackupKeyName host sel database schema)
          | some e =>
              if e.code = "NoSuchKey" then
                .error (.keyResolution "SCHEMA_NOT_FOUND"
                  ("schema backup '" ++ schemaBackupKeyName host sel database schema
                    ++ "' not found in bucket under timestamp '" ++ requested ++ "'"))
              else .error (.clientError e)
  else
    .error (.keyResolution "HOST_NOT_FOUND"
      ("host '" ++ host ++ "' not found in bucket '" ++ bucket ++ "'."))

/-! ## The caching downloader (`FetcherCachingDownloader`, lines 236–372)

The cache directory is modelled as an association of the index (source URL →
`CachedFile` record, the JSON document) and the blob directory (file name →
byte content; the file system holds at most one file per name).  The SHA-256
digest is an abstract `H : List Nat → String`.  A fetch strategy, as the
downloader consumes it, is its `url`, `real_url`, `unique_id` and the bytes
its `handle` would stream. -/

/-- Association-list lookup keyed by the first component (a dict read). -/
def assocLookup {β : Type} (k : String) : List (String × β) → Option β
  | [] => none
  | p :: ps => if p.1 = k then some p.2 else assocLookup k ps

/-- What the downloader reads from a fetch strategy. -/
structure PFetcher where
  url : String
  real_url : String
  unique_id : Option String
  content : List Nat
  deriving DecidableEq, Repr

/-- `CachedFile` (lines 184–219): one index record. -/
structure CachedFile where
  url : String
  unique_id : Option String
  real_url : String
  file_hash : Option String
  deriving DecidableEq, Repr

/-- `CachedFile.from_fetcher` with the default `file_hash=None`. -/
def CachedFile.fromFetcher (f : PFetcher) : CachedFile :=
  ⟨f.url, f.unique_id, f.real_url, none⟩

/-- The `real_url` recorded by `_update_cache`: the retained entry's when one
was passed in, else the fetcher's. -/
def cachedRealUrl (f : PFetcher) : Option CachedFile → String
  | some c => c.real_url
  | none => f.real_url

/-- The mutable cache directory: index document and blob directory. -/
structure CacheState where
  index : List (String × CachedFile)
  blobs : List (String × List Nat)
  deriving DecidableEq, Repr

/-- `self.index.get(url, {})` followed by `CachedFile.from_dict` (lines
271–273): `none` when the index has no record for the URL. -/
def lookupIndex (st : CacheState) (url : String) : Option CachedFile :=
  assocLookup url st.index

/-- `os.path.exists(blob_path)` for a blob name. -/
def blobExists (st : CacheState) (h : String) : Bool :=
  (assocLookup h st.blobs).isSome

/-- `open(blob_path, 'rb').read()`. -/
def readBlob (st : CacheState) (h : String) : Option (List Nat) :=
  assocLookup h st.blobs

/-- `index[cached_file.url] = dict(cached_file)` (line 370): set one key of
the JSON mapping, leaving the others unchanged. -/
def setIndex (idx : List (String × CachedFile)) (cf : CachedFile) :
    List (String × CachedFile) :=
  (cf.url, cf) :: idx.filter (fun p => p.1 != cf.url)

/-- `FetcherCachingDownloader._update_cache` (lines 343–365): stream the
fetcher's handle to a temp file, hash it with `get_file_hash` — which
**raises `ValueError` when the streamed content is zero-length** (lines
144–145), so nothing is stored and no index entry is written — then keep the
existing blob if one with that name exists (deduplication) or rename the
temp file into place, and rewrite the index entry for the record's URL (the
record is the retained entry when one was passed in, else
`CachedFile.from_fetcher`, with `file_hash` set to the digest).  On success
returns the new state and the blob name.  The program's `ValueError` message
names the temporary file's path, which the OS chooses nondeterministically;
the model keeps the message's fixed descriptive part.

`updateRecord` is the record `_update_cache` writes: the retained entry when
one was passed in, else `CachedFile.from_fetcher`, with `file_hash` set to
the digest (lines 344–345 and 353). -/
def updateRecord (f : PFetcher) (cached : Option CachedFile) (h : String) : CachedFile :=
  { (match cached with
     | some c => c
     | none => CachedFile.fromFetcher f) with
    file_hash := some h }

def updateCache (H : List Nat → String) (st : CacheState) (f : PFetcher)
    (cached : Option CachedFile) : Except PyErr (CacheState × String) :=
  if f.content.isEmpty then
    .error (.valueError "not hashing zero length file")
  else
    .ok (CacheState.mk
      (setIndex st.index (updateRecord f cached (H f.content)))
      (if blobExists st (H f.content) then st.blobs
       else st.blobs ++ [(H f.content, f.content)]),
     H f.content)

/-- `FetcherCachingDownloader._ensure_cached` (lines 278–297).  The result is
the new state, the blob name returned, and whether the fetcher's content was
streamed (`_update_cache` ran; when `_update_cache` raises, the exception
propagates).  `cached_file.unique_id` is tested for Python truthiness
(`None` and `''` both force a re-download); when the entry is current but
its blob is missing, the entry itself is kept and passed to
`_update_cache`.  An entry whose `file_hash` is `null` would make
`os.path.exists(None)` raise `TypeError`. -/
def ensureCached (H : List Nat → String) (st : CacheState) (f : PFetcher) :
    Except PyErr (CacheState × String × Bool) :=
  match lookupIndex st f.url with
  | some cf =>
    if truthyOptStr cf.unique_id && (f.unique_id == cf.unique_id) then
      match cf.file_hash with
      | some h =>
        if blobExists st h then .ok (st, h, false)
        else
          match updateCache H st f (some cf) with
          | .error e => .error e
          | .ok (st', p) => .ok (st', p, true)
      | none => .error .typeError
    else
      match updateCache H st f none with
      | .error e => .error e
      | .ok (st', p) => .ok (st', p, true)
  | none =>
      match updateCache H st f none with
      | .error e => .error e
      | .ok (st', p) => .ok (st', p, true)

/-- `FetcherCachingDownloader.get_handle` (lines 267–269): ensure cached,
then open the blob for binary read (returned as its bytes). -/
def getHandle (H : List Nat → String) (st : CacheState) (f : PFetcher) :
    Except PyErr (CacheState × Option (List Nat) × Bool) :=
  match ensureCached H st f with
  | .ok (st', p, fetched) => .ok (st', readBlob st' p, fetched)
  | .error e => .error e

/-- The cache-hit condition of claim C1: an index entry for the strategy's
URL with a non-empty staleness token equal to the strategy's, whose
referenced blob exists. -/
def cacheHit (st : CacheState) (f : PFetcher) : Prop :=
  ∃ cf t h, lookupIndex st f.url = some cf ∧ cf.unique_id = some t ∧ t ≠ "" ∧
    f.unique_id = some t ∧ cf.file_hash = some h ∧ blobExists st h = true

/-- Indexes the module itself writes always record a hash (`_update_index`
runs only after `file_hash` is set) and key every record by its own `url`
field (`index[cached_file.url] = dict(cached_file)`). -/
def WFIndex (st : CacheState) : Prop :=
  ∀ p ∈ st.index, (p.2).file_hash.isSome = true ∧ (p.2).url = p.1

/-! ## The pruning sweep (`_prune_cache`, lines 299–341)

For the sweep only the shape of each persisted index entry matters: whether
`CachedFile.from_dict` accepts it, and which blob its `file_hash` names.
Entries written by this module always carry a string hash, so a valid entry
is modelled as its hash (an artificial valid-shaped entry with a `null` hash
would crash the sweep in `os.path.exists(None)` and is outside the model).
Directory listings are modelled as lists of names, read as sets. -/

inductive IndexEntry where
  /-- a dict `CachedFile.from_dict` rejects (`InvalidCacheEntryError`) -/
  | invalid
  /-- a well-shaped entry whose `file_hash` names this blob -/
  | valid (fileHash : String)
  deriving DecidableEq, Repr

/-- The cache directory as the sweep sees it: the parsed index document, the
listing of the blob directory, and the listing of the cache root. -/
structure CacheDirState where
  indexEntries : List (String × IndexEntry)
  blobNames : List String
  toplevel : List String
  deriving DecidableEq, Repr

/-- First loop of `_prune_cache` (lines 305–318): drop entries whose dict is
invalid and entries whose referenced blob is missing. -/
def prunedIndex (idx : List (String × IndexEntry)) (blobNames : List String) :
    List (String × IndexEntry) :=
  idx.filter fun p =>
    match p.2 with
    | .invalid => false
    | .valid h => blobNames.contains h

/-- The `blobs_in_use` set accumulated by the same loop: the blob of every
valid-shaped entry, including entries that were just pruned for a missing
blob (those names are not on disk, so they never protect a stored blob). -/
def blobsInUse (idx : List (String × IndexEntry)) : List String :=
  idx.filterMap fun p =>
    match p.2 with
    | .invalid => none
    | .valid h => some h

/-- The three cache-root names `_prune_cache` recognises (line 333). -/
def expectedToplevel : List String := ["blobs", "cacheindex.json", "cacheindex.lock"]

/-- `FetcherCachingDownloader._prune_cache` (lines 299–341): prune the index,
write it back (creating the index file; acquiring the lock creates the lock
file), delete orphaned blobs, and delete every unrecognised cache-root
entry. -/
def pruneCache (d : CacheDirState) : CacheDirState :=
  let newIndex := prunedIndex d.indexEntries d.blobNames
  let inUse := blobsInUse d.indexEntries
  let top1 := "cacheindex.lock" :: "cacheindex.json" :: d.toplevel
  { indexEntries := newIndex
    blobNames := d.blobNames.filter (fun b => inUse.contains b)
    toplevel := top1.filter (fun e => expectedToplevel.contains e) }

/-! ## Lazy, memoised derived properties (claim C3)

Each `if self._x is None: self._x = ...` cell is a `Memo`; `effects` counts
the runs of the underlying side effect, which is modelled as a function of
how many times it has run (so a mutating remote can answer differently on a
later run). -/

structure Memo (α : Type) where
  cell : Option α
  effects : Nat
  deriving DecidableEq, Repr

def Memo.start {α : Type} : Memo α := ⟨none, 0⟩

/-- Compute-on-first-access: return the cached value, or run the side effect
once and cache its result. -/
def Memo.get {α : Type} (m : Memo α) (compute : Nat → α) : Memo α × α :=
  match m.cell with
  | some v => (m, v)
  | none => (⟨some (compute m.effects), m.effects + 1⟩, compute m.effects)

/-- A streamed HTTP response: body bytes and optional `ETag` header. -/
structure HTTPResponse where
  content : List Nat
  etag : Option String
  deriving DecidableEq, Repr

/-- `HTTPFetcher`'s lazy state: `_stream` (the response) and `_handle`. -/
structure HTTPFetcherSt where
  stream : Memo HTTPResponse
  handle : Memo (List Nat)
  deriving DecidableEq, Repr

def HTTPFetcherSt.start : HTTPFetcherSt := ⟨Memo.start, Memo.start⟩

/-- `HTTPFetcher.response` (lines 431–437): issue the GET once, memoised. -/
def httpResponse (remote : Nat → HTTPResponse) (s : HTTPFetcherSt) :
    HTTPFetcherSt × HTTPResponse :=
  let r := s.stream.get remote
  ({ s with stream := r.1 }, r.2)

/-- `HTTPFetcher.unique_id` (lines 445–447): the memoised response's ETag. -/
def httpUniqueId (remote : Nat → HTTPResponse) (s : HTTPFetcherSt) :
    HTTPFetcherSt × Option String :=
  let r := httpResponse remote s
  (r.1, r.2.etag)

/-- `HTTPFetcher.handle` (lines 439–443): buffer the response body once. -/
def httpHandle (remote : Nat → HTTPResponse) (s : HTTPFetcherSt) :
    HTTPFetcherSt × List Nat :=
  match s.handle.cell with
  | some v => (s, v)
  | none =>
    let r := httpResponse remote s
    ({ r.1 with handle := ⟨some r.2.content, s.handle.effects + 1⟩ }, r.2.content)

/-- An object-store response: body bytes and the `etag` response header. -/
structure S3Object where
  etag : String
  body : List Nat
  deriving DecidableEq, Repr

/-- `S3Fetcher`'s lazy state: `_object` and `_handle`. -/
structure S3FetcherSt where
  object : Memo S3Object
  handle : Memo (List Nat)
  deriving DecidableEq, Repr

def S3FetcherSt.start : S3FetcherSt := ⟨Memo.start, Memo.start⟩

/-- `S3Fetcher.object` (lines 501–505): one `get_object` call, memoised. -/
def s3ObjectGet (remote : Nat → S3Object) (s : S3FetcherSt) : S3FetcherSt × S3Object :=
  let r := s.object.get remote
  ({ s with object := r.1 }, r.2)

/-- `S3Fetcher.unique_id` (lines 507–509): the memoised object's etag. -/
def s3UniqueId (remote : Nat → S3Object) (s : S3FetcherSt) : S3FetcherSt × String :=
  let r := s3ObjectGet remote s
  (r.1, r.2.etag)

/-- `S3Fetcher.handle` (lines 495–499): the memoised object's body. -/
def s3Handle (remote : Nat → S3Object) (s : S3FetcherSt) : S3FetcherSt × List Nat :=
  match s.handle.cell with
  | some v => (s, v)
  | none =>
    let r := s3ObjectGet remote s
    ({ r.1 with handle := ⟨some r.2.body, s.handle.effects + 1⟩ }, r.2.body)

/-- `BaseResolvingS3Fetcher`'s `_key` cell. -/
structure ResolvingSt where
  key : Memo String
  deriving DecidableEq, Repr

def ResolvingSt.start : ResolvingSt := ⟨Memo.start⟩

/-- `BaseResolvingS3Fetcher.path` (lines 577–585): run `_get_key` once,
memoised; `resolve` is the listing-driven key resolution as a function of how
many times it has run. -/
def resolvingPath (resolve : Nat → String) (s : ResolvingSt) : ResolvingSt × String :=
  let r := s.key.get resolve
  (⟨r.1⟩, r.2)

/-- `LocalFileFetcher`'s state: the `_handle` cell and a count of
`get_file_hash` runs (the file-hashing side effect). -/
structure LocalFileSt where
  handle : Memo (List Nat)
  hashOps : Nat
  deriving DecidableEq, Repr

def LocalFileSt.start : LocalFileSt := ⟨Memo.start, 0⟩

/-- `LocalFileFetcher.handle` (lines 470–474): open the file once, memoised;
`file` is the file's bytes as of the moment the open happens. -/
def localFileHandle (file : Nat → List Nat) (s : LocalFileSt) : LocalFileSt × List Nat :=
  let r := s.handle.get file
  ({ s with handle := r.1 }, r.2)

/-- `LocalFileFetcher.unique_id` (lines 476–478): `return
get_file_hash(self.path)` — **no memoisation**: every read re-hashes the
file as it currently is (`currentFile`). -/
def localFileUniqueId (H : List Nat → String) (currentFile : List Nat) (s : LocalFileSt) :
    LocalFileSt × String :=
  ({ s with hashOps := s.hashOps + 1 }, H currentFile)

/-- A concrete stand-in digest for closed counterexamples: the content's
length in unary. -/
def demoHash (c : List Nat) : String := String.mk (c.map fun _ => 'x')

/-! ## Supporting lemmas -/

theorem assocLookup_mem {β : Type} {k : String} {v : β} :
    ∀ {l : List (String × β)}, assocLookup k l = some v → (k, v) ∈ l := by
  intro l
  induction l with
  | nil => intro h; simp [assocLookup] at h
  | cons p ps ih =>
    intro h
    rw [assocLookup] at h
    by_cases hk : p.1 = k
    · rw [if_pos hk] at h
      injection h with h
      have hp : p = (k, v) := Prod.ext hk h
      rw [← hp]
      exact List.mem_cons_self p ps
    · rw [if_neg hk] at h
      exact List.mem_cons_of_mem _ (ih h)

theorem truthyOptStr_iff {o : Option String} :
    truthyOptStr o = true ↔ ∃ t, o = some t ∧ t ≠ "" := by
  cases o with
  | none => simp [truthyOptStr]
  | some s =>
    have hs : truthyOptStr (some s) = !(decide (s.data = [])) := rfl
    rw [hs]
    simp only [Bool.not_eq_true', decide_eq_false_iff_not]
    constructor
    · intro h
      refine ⟨s, rfl, fun he => h ?_⟩
      rw [he]
    · rintro ⟨t, ht, hne⟩ hdata
      injection ht with ht
      subst ht
      exact hne (String.ext hdata)

theorem bool_and_split {a b : Bool} (h : (a && b) = true) : a = true ∧ b = true := by
  cases a <;> cases b <;> simp_all

theorem bool_and_intro {a b : Bool} (h1 : a = true) (h2 : b = true) : (a && b) = true := by
  rw [h1, h2]
  rfl

theorem lexLe_total : ∀ s t : List Char, lexLe s t = true ∨ lexLe t s = true := by
  intro s
  induction s with
  | nil => intro t; left; rw [lexLe]
  | cons a as ih =>
    intro t
    cases t with
    | nil => right; rw [lexLe]
    | cons b bs =>
      rcases lt_trichotomy a b with hab | hab | hab
      · left; rw [lexLe, if_pos hab]
      · subst hab
        rcases ih bs with h | h
        · left; rw [lexLe, if_neg (lt_irrefl a), if_neg (lt_irrefl a)]; exact h
        · right; rw [lexLe, if_neg (lt_irrefl a), if_neg (lt_irrefl a)]; exact h
      · right; rw [lexLe, if_pos hab]

theorem lexLe_trans :
    ∀ {s t u : List Char}, lexLe s t = true → lexLe t u = true → lexLe s u = true := by
  intro s
  induction s with
  | nil => intro t u _ _; rw [lexLe]
  | cons a as ih =>
    intro t u hst htu
    cases t with
    | nil => rw [lexLe] at hst; exact absurd hst (by simp)
    | cons b bs =>
      cases u with
      | nil => rw [lexLe] at htu; exact absurd htu (by simp)
      | cons c cs =>
        rw [lexLe] at hst htu ⊢
        rcases lt_trichotomy a b with hab | hab | hab
        · rcases lt_trichotomy b c with hbc | hbc | hbc
          · rw [if_pos (lt_trans hab hbc)]
          · subst hbc
            rw [if_pos hab]
          · rw [if_neg (lt_asymm hbc), if_pos hbc] at htu
            exact absurd htu (by simp)
        · subst hab
          rcases lt_trichotomy a c with hac | hac | hac
          · rw [if_pos hac]
          · subst hac
            rw [if_neg (lt_irrefl a), if_neg (lt_irrefl a)] at hst htu ⊢
            exact ih hst htu
          · rw [if_neg (lt_asymm hac), if_pos hac] at htu
            exact absurd htu (by simp)
        · rw [if_neg (lt_asymm hab), if_pos hab] at hst
          exact absurd hst (by simp)

theorem lexLe_refl : ∀ s : List Char, lexLe s s = true := by
  intro s
  induction s with
  | nil => rw [lexLe]
  | cons a as ih =>
    rw [lexLe, if_neg (lt_irrefl a), if_neg (lt_irrefl a)]
    exact ih

/-- In a `Pairwise r` list, the last element is related to every other
member. -/
theorem pairwise_rel_getLast {α : Type} {r : α → α → Prop} :
    ∀ {l : List α}, List.Pairwise r l → ∀ (hne : l ≠ []) (x : α), x ∈ l →
      x = l.getLast hne ∨ r x (l.getLast hne) := by
  intro l
  induction l with
  | nil => intro _ hne; exact absurd rfl hne
  | cons a t ih =>
    intro h hne x hx
    cases t with
    | nil =>
      simp only [List.mem_singleton] at hx
      left
      rw [hx]
      rfl
    | cons b u =>
      have hlast : (a :: b :: u).getLast hne = (b :: u).getLast (by simp) :=
        List.getLast_cons (by simp)
      rcases List.mem_cons.mp hx with hxa | hxt
      · right
        rw [hlast, hxa]
        exact (List.pairwise_cons.mp h).1 _ (List.getLast_mem _)
      · rcases ih (List.pairwise_cons.mp h).2 (by simp) x hxt with h1 | h1
        · left; rw [hlast, h1]
        · right; rw [hlast]; exact h1

theorem exceptMap_eq_map {α β : Type} (f : α → Except PyErr β) (g : α → β) :
    ∀ (l : List α), (∀ x ∈ l, f x = .ok (g x)) → exceptMap f l = .ok (l.map g) := by
  intro l
  induction l with
  | nil => intro _; rfl
  | cons x xs ih =>
    intro h
    rw [exceptMap, h x (List.mem_cons_self x xs), ih (fun y hy => h y (List.mem_cons_of_mem x hy))]
    rfl

theorem exceptMap_error {α β : Type} (f : α → Except PyErr β) (S : PyErr → Prop) :
    ∀ (l : List α), (∀ x ∈ l, ∀ e, f x = .error e → S e) →
      (∃ x ∈ l, ∃ e, f x = .error e) →
      ∃ e, exceptMap f l = .error e ∧ S e := by
  intro l
  induction l with
  | nil => rintro _ ⟨x, hx, _⟩; exact absurd hx (List.not_mem_nil x)
  | cons x xs ih =>
    rintro hS ⟨y, hy, ey, hey⟩
    rw [exceptMap]
    cases hfx : f x with
    | error e => exact ⟨e, rfl, hS x (List.mem_cons_self x xs) e hfx⟩
    | ok v =>
      have hyxs : y ∈ xs := by
        rcases List.mem_cons.mp hy with h | h
        · subst h; rw [hfx] at hey; cases hey
        · exact h
      obtain ⟨e, he, hSe⟩ := ih (fun z hz => hS z (List.mem_cons_of_mem x hz)) ⟨y, hyxs, ey, hey⟩
      rw [he]
      exact ⟨e, rfl, hSe⟩

/-! ## Cache-state lemmas -/

theorem assocLookup_append_right {β : Type} {k : String} {l2 : List (String × β)} :
    ∀ {l1 : List (String × β)}, assocLookup k l1 = none →
      assocLookup k (l1 ++ l2) = assocLookup k l2 := by
  intro l1
  induction l1 with
  | nil => intro _; rfl
  | cons p ps ih =>
    intro h
    rw [assocLookup] at h
    by_cases hk : p.1 = k
    · rw [if_pos hk] at h; cases h
    · rw [if_neg hk] at h
      rw [List.cons_append, assocLookup, if_neg hk]
      exact ih h

theorem assocLookup_filter_ne {β : Type} {k k' : String} (hne : k ≠ k') :
    ∀ {l : List (String × β)},
      assocLookup k (l.filter (fun p => p.1 != k')) = assocLookup k l := by
  intro l
  induction l with
  | nil => rfl
  | cons p ps ih =>
    rw [List.filter_cons]
    by_cases hp : p.1 = k
    · have : (p.1 != k') = true := by
        simp only [bne_iff_ne, ne_eq]
        rw [hp]
        exact hne
      rw [if_pos this, assocLookup, if_pos hp, assocLookup, if_pos hp]
    · by_cases hp' : (p.1 != k') = true
      · rw [if_pos hp', assocLookup, if_neg hp, assocLookup, if_neg hp]
        exact ih
      · rw [if_neg hp', assocLookup, if_neg hp]
        exact ih

theorem lookup_setIndex_self {idx : List (String × CachedFile)} {cf : CachedFile} :
    assocLookup cf.url (setIndex idx cf) = some cf := by
  rw [setIndex, assocLookup, if_pos rfl]

theorem lookup_setIndex_ne {idx : List (String × CachedFile)} {cf : CachedFile} {u : String}
    (h : u ≠ cf.url) : assocLookup u (setIndex idx cf) = assocLookup u idx := by
  rw [setIndex, assocLookup, if_neg (fun hh : cf.url = u => h hh.symm)]
  exact assocLookup_filter_ne h

/-- What `_update_cache` guarantees for non-empty streamed content, whenever
the record it is given (if any) carries the fetcher's URL and staleness
token — which is the case on every path of `_ensure_cached`, by `WFIndex`
and the token-equality test. -/
theorem updateCache_spec (H : List Nat → String) (st : CacheState) (f : PFetcher)
    (cached : Option CachedFile)
    (hne : f.content ≠ [])
    (hded : ∀ p ∈ st.blobs, p.1 = H f.content → p.2 = f.content)
    (hc : ∀ c, cached = some c → c.url = f.url ∧ c.unique_id = f.unique_id) :
    ∃ st', updateCache H st f cached = .ok (st', H f.content) ∧
      readBlob st' (H f.content) = some f.content ∧
      blobExists st' (H f.content) = true ∧
      lookupIndex st' f.url =
        some (CachedFile.mk f.url f.unique_id (cachedRealUrl f cached) (some (H f.content))) ∧
      (∀ u, u ≠ f.url → lookupIndex st' u = lookupIndex st u) := by
  have hemp : ¬(f.content.isEmpty = true) := fun hh => hne (List.isEmpty_iff.mp hh)
  refine ⟨CacheState.mk
    (setIndex st.index (updateRecord f cached (H f.content)))
    (if blobExists st (H f.content) then st.blobs
     else st.blobs ++ [(H f.content, f.content)]), ?_, ?_, ?_, ?_, ?_⟩
  · rw [updateCache, if_neg hemp]
  · by_cases hb : blobExists st (H f.content) = true
    · obtain ⟨v, hv⟩ := Option.isSome_iff_exists.mp hb
      have hvc : v = f.content := hded _ (assocLookup_mem hv) rfl
      show assocLookup (H f.content)
        (if blobExists st (H f.content) then st.blobs
         else st.blobs ++ [(H f.content, f.content)]) = some f.content
      rw [if_pos hb, hv, hvc]
    · have hnone : assocLookup (H f.content) st.blobs = none := by
        rw [← Option.not_isSome_iff_eq_none]
        exact fun hh => hb hh
      show assocLookup (H f.content)
        (if blobExists st (H f.content) then st.blobs
         else st.blobs ++ [(H f.content, f.content)]) = some f.content
      rw [if_neg hb, assocLookup_append_right hnone, assocLookup, if_pos rfl]
  · by_cases hb : blobExists st (H f.content) = true
    · obtain ⟨v, hv⟩ := Option.isSome_iff_exists.mp hb
      show (assocLookup (H f.content)
        (if blobExists st (H f.content) then st.blobs
         else st.blobs ++ [(H f.content, f.content)])).isSome = true
      rw [if_pos hb, hv]
      rfl
    · have hnone : assocLookup (H f.content) st.blobs = none := by
        rw [← Option.not_isSome_iff_eq_none]
        exact fun hh => hb hh
      show (assocLookup (H f.content)
        (if blobExists st (H f.content) then st.blobs
         else st.blobs ++ [(H f.content, f.content)])).isSome = true
      rw [if_neg hb, assocLookup_append_right hnone, assocLookup, if_pos rfl]
      rfl
  · cases cached with
    | none =>
      simp only [lookupIndex, cachedRealUrl, updateRecord, CachedFile.fromFetcher]
      exact lookup_setIndex_self
    | some c =>
      obtain ⟨hcu, hci⟩ := hc c rfl
      simp only [lookupIndex, cachedRealUrl, updateRecord]
      rw [← hcu, ← hci]
      exact lookup_setIndex_self
  · intro u hu
    cases cached with
    | none =>
      simp only [lookupIndex, updateRecord, CachedFile.fromFetcher]
      apply lookup_setIndex_ne
      exact hu
    | some c =>
      obtain ⟨hcu, hci⟩ := hc c rfl
      simp only [lookupIndex, updateRecord]
      apply lookup_setIndex_ne
      exact fun hh => hu ((show u = c.url from hh).trans hcu)

/-- `_update_cache` on zero-length streamed content raises the `ValueError`
from `get_file_hash` and neither stores a blob nor touches the index. -/
theorem updateCache_empty (H : List Nat → String) (st : CacheState) (f : PFetcher)
    (cached : Option CachedFile) (hc : f.content = []) :
    updateCache H st f cached = .error (.valueError "not hashing zero length file") := by
  rw [updateCache, if_pos (by rw [hc]; rfl)]

/-- The cache-hit path of `_ensure_cached`: a keyed entry with a non-empty
matching token and an existing blob returns that blob with no state change
and no content fetch. -/
theorem ensureCached_hit (H : List Nat → String) (st : CacheState) (f : PFetcher)
    {cf : CachedFile} {t h : String}
    (hlk : lookupIndex st f.url = some cf) (ht : cf.unique_id = some t) (htne : t ≠ "")
    (hft : f.unique_id = some t) (hh : cf.file_hash = some h) (hb : blobExists st h = true) :
    ensureCached H st f = .ok (st, h, false) := by
  have hcond : (truthyOptStr cf.unique_id && (f.unique_id == cf.unique_id)) = true := by
    exact bool_and_intro (truthyOptStr_iff.mpr ⟨t, ht, htne⟩)
      (beq_iff_eq.mpr (by rw [ht, hft]))
  simp only [ensureCached, hlk, hcond, if_true, hh, hb]

theorem assocLookup_isSome_of_mem_keys {β : Type} {k : String} :
    ∀ {l : List (String × β)}, k ∈ l.map Prod.fst → (assocLookup k l).isSome = true := by
  intro l
  induction l with
  | nil => intro h; simp at h
  | cons p ps ih =>
    intro h
    rw [assocLookup]
    by_cases hk : p.1 = k
    · rw [if_pos hk]
      rfl
    · rw [if_neg hk]
      simp only [List.map_cons, List.mem_cons] at h
      rcases h with h | h
      · exact absurd h.symm hk
      · exact ih h

/-- Every successful `_ensure_cached` either leaves the state unchanged (the
hit path) or is a successful `_update_cache` result. -/
theorem ensureCached_state {H : List Nat → String} {st : CacheState} {f : PFetcher}
    {st' : CacheState} {p : String} {d : Bool}
    (h : ensureCached H st f = .ok (st', p, d)) :
    st' = st ∨ ∃ cached, updateCache H st f cached = .ok (st', p) := by
  cases hlk : lookupIndex st f.url with
  | none =>
    simp only [ensureCached, hlk] at h
    cases hu : updateCache H st f none with
    | error e => rw [hu] at h; cases h
    | ok pr =>
      obtain ⟨a, b⟩ := pr
      simp only [hu] at h
      injection h with h
      injection h with h1 h2
      injection h2 with h2 h3
      right
      rw [h1, h2] at hu
      exact ⟨none, hu⟩
  | some cf =>
    simp only [ensureCached, hlk] at h
    by_cases hcond : (truthyOptStr cf.unique_id && (f.unique_id == cf.unique_id)) = true
    · rw [if_pos hcond] at h
      cases hh : cf.file_hash with
      | some h0 =>
        simp only [hh] at h
        by_cases hb : blobExists st h0 = true
        · rw [if_pos hb] at h
          injection h with h
          injection h with h1 h2
          left
          exact h1.symm
        · rw [if_neg hb] at h
          cases hu : updateCache H st f (some cf) with
          | error e => rw [hu] at h; cases h
          | ok pr =>
            obtain ⟨a, b⟩ := pr
            simp only [hu] at h
            injection h with h
            injection h with h1 h2
            injection h2 with h2 h3
            right
            rw [h1, h2] at hu
            exact ⟨some cf, hu⟩
      | none =>
        simp only [hh] at h
        cases h
    · rw [if_neg hcond] at h
      cases hu : updateCache H st f none with
      | error e => rw [hu] at h; cases h
      | ok pr =>
        obtain ⟨a, b⟩ := pr
        simp only [hu] at h
        injection h with h
        injection h with h1 h2
        injection h2 with h2 h3
        right
        rw [h1, h2] at hu
        exact ⟨none, hu⟩

/-- `_ensure_cached` never duplicates a blob name: content addressing keeps
at most one physical copy per digest. -/
theorem ensureCached_nodup {H : List Nat → String} {st : CacheState} {f : PFetcher}
    {st' : CacheState} {p : String} {d : Bool}
    (hnd : (st.blobs.map Prod.fst).Nodup)
    (h : ensureCached H st f = .ok (st', p, d)) : (st'.blobs.map Prod.fst).Nodup := by
  rcases ensureCached_state h with h1 | ⟨cached, h1⟩
  · rw [h1]
    exact hnd
  · by_cases hemp : f.content.isEmpty = true
    · rw [updateCache, if_pos hemp] at h1
      cases h1
    · rw [updateCache, if_neg hemp] at h1
      injection h1 with h1
      injection h1 with h1 h2
      rw [← h1]
      show ((if blobExists st (H f.content) then st.blobs
        else st.blobs ++ [(H f.content, f.content)]).map Prod.fst).Nodup
      by_cases hb : blobExists st (H f.content) = true
      · rw [if_pos hb]
        exact hnd
      · rw [if_neg hb]
        rw [List.map_append, List.nodup_append]
        refine ⟨hnd, List.nodup_singleton _, ?_⟩
        intro a ha hb2
        simp only [List.map_cons, List.map_nil, List.mem_singleton] at hb2
        subst hb2
        exact hb (assocLookup_isSome_of_mem_keys ha)

/-! ## Claim C1 — cache hit/miss behaviour of the caching downloader -/

/-- With zero-length streamed content and no cache hit, `_ensure_cached`
surfaces the `ValueError` from `get_file_hash` (lines 144–145) and caches
nothing. -/
theorem ensureCached_empty_error (H : List Nat → String) (st : CacheState) (f : PFetcher)
    (hwf : WFIndex st) (hc : f.content = []) (hnohit : ¬ cacheHit st f) :
    ensureCached H st f = .error (.valueError "not hashing zero length file") := by
  have hupd : ∀ cached, updateCache H st f cached
      = .error (.valueError "not hashing zero length file") :=
    fun cached => updateCache_empty H st f cached hc
  cases hlk : lookupIndex st f.url with
  | none =>
    simp only [ensureCached, hlk, hupd]
  | some cf =>
    obtain ⟨hhash, hurl⟩ := hwf _ (assocLookup_mem hlk)
    obtain ⟨h0, hh0⟩ := Option.isSome_iff_exists.mp hhash
    have hh0' : cf.file_hash = some h0 := hh0
    by_cases hcond : (truthyOptStr cf.unique_id && (f.unique_id == cf.unique_id)) = true
    · by_cases hb : blobExists st h0 = true
      · obtain ⟨t, ht, htne⟩ := truthyOptStr_iff.mp (bool_and_split hcond).1
        have hft : f.unique_id = some t := by
          rw [beq_iff_eq.mp (bool_and_split hcond).2, ht]
        exact absurd ⟨cf, t, h0, hlk, ht, htne, hft, hh0', hb⟩ hnohit
      · simp only [ensureCached, hlk]
        rw [if_pos hcond]
        simp only [hh0']
        rw [if_neg hb, hupd]
    · simp only [ensureCached, hlk]
      rw [if_neg hcond, hupd]

/-- Claim C1 counterexample: fetching zero-length content — reachable via an
empty HTTP body or a zero-byte stored object — makes `_update_cache` raise
the `ValueError` of `get_file_hash`'s zero-length check after streaming, so
`get_handle` raises and neither stores a blob nor updates the index, where
the claim asserts it "stores it under the hash-named blob path, and updates
the index entry". -/
theorem ensure_cached_empty_content_raises :
    ensureCached demoHash ⟨[], []⟩ ⟨"u", "u", some "e", []⟩
      = .error (.valueError "not hashing zero length file") ∧
    getHandle demoHash ⟨[], []⟩ ⟨"u", "u", some "e", []⟩
      = .error (.valueError "not hashing zero length file") :=
  ⟨rfl, rfl⟩

/-- Claim C1 (amended): over a well-formed cache state (`WFIndex`; `hded` is
SHA-256 collision-freedom localised to the state), for a strategy whose
streamed content is **non-empty**, `get_handle`/`_ensure_cached` succeeds,
and it returns the existing cached blob without streaming content **iff**
the index holds an entry for the strategy's URL whose staleness token is
non-empty and equal to the strategy's token and whose blob exists
(`cacheHit`).  On a hit the state is unchanged; in every other case it
streams the content, stores it under its digest name, and rewrites the
index entry for that URL (leaving other URLs alone).  With a non-empty
unchanged token, an immediate second download of the same URL is a pure
cache hit: no second content fetch, same blob, byte-identical content.
Fetching zero-length content instead raises the `ValueError` of
`get_file_hash`'s zero-length check and caches nothing. -/
theorem ensure_cached_spec (H : List Nat → String) (st : CacheState) (f : PFetcher)
    (hwf : WFIndex st)
    (hded : ∀ p ∈ st.blobs, p.1 = H f.content → p.2 = f.content)
    (hne : f.content ≠ []) :
    (∃ st' p didFetch, ensureCached H st f = .ok (st', p, didFetch) ∧
      getHandle H st f = .ok (st', readBlob st' p, didFetch) ∧
      (didFetch = false ↔ cacheHit st f) ∧
      (didFetch = false → st' = st) ∧
      (didFetch = true →
        p = H f.content ∧
        readBlob st' p = some f.content ∧
        (∃ cf', lookupIndex st' f.url = some cf' ∧ cf'.file_hash = some p ∧
          cf'.unique_id = f.unique_id ∧ cf'.url = f.url) ∧
        (∀ u, u ≠ f.url → lookupIndex st' u = lookupIndex st u)) ∧
      (readBlob st' p).isSome = true ∧
      (∀ t, f.unique_id = some t → t ≠ "" →
        ensureCached H st' f = .ok (st', p, false) ∧
        getHandle H st' f = .ok (st', readBlob st' p, false))) ∧
    (∀ f0 : PFetcher, f0.content = [] → ¬ cacheHit st f0 →
      ensureCached H st f0 = .error (.valueError "not hashing zero length file")) := by
  refine ⟨?_, fun f0 h0 hnh => ensureCached_empty_error H st f0 hwf h0 hnh⟩
  cases hlk : lookupIndex st f.url with
  | none =>
    obtain ⟨stU, hupd, s2, s3, s4, s5⟩ :=
      updateCache_spec H st f none hne hded (fun c hc => Option.noConfusion hc)
    have heq : ensureCached H st f = .ok (stU, H f.content, true) := by
      simp only [ensureCached, hlk, hupd]
    have hnohit : ¬ cacheHit st f := by
      rintro ⟨cf2, t, h2, hlk2, -⟩
      rw [hlk] at hlk2
      cases hlk2
    have hsec : ∀ t, f.unique_id = some t → t ≠ "" →
        ensureCached H stU f = .ok (stU, H f.content, false) := by
      intro t hft htne
      exact ensureCached_hit H stU f s4 hft htne hft rfl s3
    refine ⟨stU, H f.content, true, heq,
      by simp only [getHandle, heq], ⟨fun h => Bool.noConfusion h, fun hh => absurd hh hnohit⟩,
      fun h => Bool.noConfusion h, fun _ => ⟨rfl, s2, ⟨_, s4, rfl, rfl, rfl⟩, s5⟩, ?_, ?_⟩
    · rw [s2]
      rfl
    · intro t hft htne
      exact ⟨hsec t hft htne, by simp only [getHandle, hsec t hft htne]⟩
  | some cf =>
    obtain ⟨hhash, hurl⟩ := hwf _ (assocLookup_mem hlk)
    have hurl' : cf.url = f.url := hurl
    obtain ⟨h0, hh0⟩ := Option.isSome_iff_exists.mp hhash
    have hh0' : cf.file_hash = some h0 := hh0
    by_cases hcond : (truthyOptStr cf.unique_id && (f.unique_id == cf.unique_id)) = true
    · obtain ⟨t, ht, htne⟩ := truthyOptStr_iff.mp (bool_and_split hcond).1
      have hft : f.unique_id = some t := by
        rw [beq_iff_eq.mp (bool_and_split hcond).2, ht]
      by_cases hb : blobExists st h0 = true
      · -- pure cache hit
        have heq : ensureCached H st f = .ok (st, h0, false) :=
          ensureCached_hit H st f hlk ht htne hft hh0' hb
        refine ⟨st, h0, false, heq, by simp only [getHandle, heq],
          ⟨fun _ => ⟨cf, t, h0, hlk, ht, htne, hft, hh0', hb⟩, fun _ => rfl⟩,
          fun _ => rfl, fun h => Bool.noConfusion h, hb, ?_⟩
        intro t' hft' htne'
        exact ⟨heq, by simp only [getHandle, heq]⟩
      · -- current token but missing blob: re-download, keeping the entry
        have hcu : ∀ c, some cf = some c → c.url = f.url ∧ c.unique_id = f.unique_id := by
          intro c hc
          injection hc with hc
          rw [← hc]
          exact ⟨hurl', (beq_iff_eq.mp (bool_and_split hcond).2).symm⟩
        obtain ⟨stU, hupd, s2, s3, s4, s5⟩ := updateCache_spec H st f (some cf) hne hded hcu
        have heq : ensureCached H st f = .ok (stU, H f.content, true) := by
          simp only [ensureCached, hlk]
          rw [if_pos hcond]
          simp only [hh0']
          rw [if_neg hb, hupd]
        have hnohit : ¬ cacheHit st f := by
          rintro ⟨cf2, t2, h2, hlk2, ht2, htne2, hft2, hh2, hb2⟩
          rw [hlk] at hlk2
          injection hlk2 with hcf2
          rw [← hcf2, hh0'] at hh2
          injection hh2 with hh2
          rw [← hh2] at hb2
          exact hb (by exact hb2)
        have hsec : ∀ t', f.unique_id = some t' → t' ≠ "" →
            ensureCached H stU f = .ok (stU, H f.content, false) := by
          intro t' hft' htne'
          exact ensureCached_hit H stU f s4 hft' htne' hft' rfl s3
        refine ⟨stU, H f.content, true, heq,
          by simp only [getHandle, heq],
          ⟨fun h => Bool.noConfusion h, fun hh => absurd hh hnohit⟩,
          fun h => Bool.noConfusion h,
          fun _ => ⟨rfl, s2, ⟨_, s4, rfl, rfl, rfl⟩, s5⟩, ?_, ?_⟩
        · rw [s2]
          rfl
        · intro t' hft' htne'
          exact ⟨hsec t' hft' htne', by simp only [getHandle, hsec t' hft' htne']⟩
    · -- stale entry or empty/absent token: discard the record and re-download
      obtain ⟨stU, hupd, s2, s3, s4, s5⟩ :=
        updateCache_spec H st f none hne hded (fun c hc => Option.noConfusion hc)
      have heq : ensureCached H st f = .ok (stU, H f.content, true) := by
        simp only [ensureCached, hlk]
        rw [if_neg hcond, hupd]
      have hnohit : ¬ cacheHit st f := by
        rintro ⟨cf2, t2, h2, hlk2, ht2, htne2, hft2, hh2, hb2⟩
        rw [hlk] at hlk2
        injection hlk2 with hcf2
        refine hcond (bool_and_intro ?_ ?_)
        · rw [← hcf2] at ht2
          exact truthyOptStr_iff.mpr ⟨t2, ht2, htne2⟩
        · rw [← hcf2] at ht2
          exact beq_iff_eq.mpr (by rw [hft2, ht2])
      have hsec : ∀ t, f.unique_id = some t → t ≠ "" →
          ensureCached H stU f = .ok (stU, H f.content, false) := by
        intro t hft htne
        exact ensureCached_hit H stU f s4 hft htne hft rfl s3
      refine ⟨stU, H f.content, true, heq,
        by simp only [getHandle, heq],
        ⟨fun h => Bool.noConfusion h, fun hh => absurd hh hnohit⟩,
        fun h => Bool.noConfusion h,
        fun _ => ⟨rfl, s2, ⟨_, s4, rfl, rfl, rfl⟩, s5⟩, ?_, ?_⟩
      · rw [s2]
        rfl
      · intro t hft htne
        exact ⟨hsec t hft htne, by simp only [getHandle, hsec t hft htne]⟩

/-- Witness for `ensure_cached_spec` on an empty cache directory and a
fetcher with a non-empty staleness token and non-empty content. -/
theorem ensure_cached_spec_witness :
    WFIndex ⟨[], []⟩ ∧
    (∀ p ∈ (⟨[], []⟩ : CacheState).blobs,
      p.1 = demoHash (⟨"u", "u", some "e", [0]⟩ : PFetcher).content → p.2 = [0]) ∧
    ((⟨"u", "u", some "e", [0]⟩ : PFetcher).content ≠ []) ∧
    ((∃ st' p didFetch,
      ensureCached demoHash ⟨[], []⟩ ⟨"u", "u", some "e", [0]⟩ = .ok (st', p, didFetch) ∧
      getHandle demoHash ⟨[], []⟩ ⟨"u", "u", some "e", [0]⟩
        = .ok (st', readBlob st' p, didFetch) ∧
      (didFetch = false ↔ cacheHit ⟨[], []⟩ ⟨"u", "u", some "e", [0]⟩) ∧
      (didFetch = false → st' = ⟨[], []⟩) ∧
      (didFetch = true →
        p = demoHash [0] ∧
        readBlob st' p = some [0] ∧
        (∃ cf', lookupIndex st' "u" = some cf' ∧ cf'.file_hash = some p ∧
          cf'.unique_id = some "e" ∧ cf'.url = "u") ∧
        (∀ u, u ≠ "u" → lookupIndex st' u = lookupIndex ⟨[], []⟩ u)) ∧
      (readBlob st' p).isSome = true ∧
      (∀ t, (some "e" : Option String) = some t → t ≠ "" →
        ensureCached demoHash st' ⟨"u", "u", some "e", [0]⟩ = .ok (st', p, false) ∧
        getHandle demoHash st' ⟨"u", "u", some "e", [0]⟩
          = .ok (st', readBlob st' p, false))) ∧
    (∀ f0 : PFetcher, f0.content = [] → ¬ cacheHit ⟨[], []⟩ f0 →
      ensureCached demoHash ⟨[], []⟩ f0
        = .error (.valueError "not hashing zero length file"))) :=
  ⟨fun p hp => absurd hp (List.not_mem_nil p),
    fun p hp _ => absurd hp (List.not_mem_nil p),
    by decide,
    ensure_cached_spec demoHash ⟨[], []⟩ ⟨"u", "u", some "e", [0]⟩
      (fun p hp => absurd hp (List.not_mem_nil p))
      (fun p hp _ => absurd hp (List.not_mem_nil p))
      (by decide)⟩

/-! ## Claim C5 — content deduplication across distinct source URLs -/

/-- Claim C5 counterexample: for two distinct source URLs whose byte-identical
content is **empty**, both downloads raise the `ValueError` of
`get_file_hash`'s zero-length check instead of producing the claimed
one-blob, two-entry cache state: nothing is stored at all. -/
theorem dedup_empty_content_raises :
    ((⟨"u1", "u1", some "e1", []⟩ : PFetcher).url ≠ (⟨"u2", "u2", none, []⟩ : PFetcher).url) ∧
    ensureCached demoHash ⟨[], []⟩ ⟨"u1", "u1", some "e1", []⟩
      = .error (.valueError "not hashing zero length file") ∧
    getHandle demoHash ⟨[], []⟩ ⟨"u2", "u2", none, []⟩
      = .error (.valueError "not hashing zero length file") :=
  ⟨by decide, rfl, rfl⟩

/-- Claim C5 (amended): downloading two distinct source URLs with
byte-identical **non-empty** content through one caching downloader
(starting from an empty cache) leaves exactly one blob file, named by the
content's digest, while the index holds two distinct entries — one per
source URL — both referencing that digest (zero-length content instead
raises `ValueError` and stores nothing).  In general the blob store never
gains two files with the same name: `_ensure_cached` preserves distinctness
of blob names. -/
theorem blob_deduplication (H : List Nat → String) (c : List Nat) (f1 f2 : PFetcher)
    (h1 : f1.content = c) (h2 : f2.content = c) (hurl : f1.url ≠ f2.url)
    (hcne : c ≠ []) :
    (∃ st1 st2 cf1 cf2,
      ensureCached H ⟨[], []⟩ f1 = .ok (st1, H c, true) ∧
      ensureCached H st1 f2 = .ok (st2, H c, true) ∧
      st2.blobs = [(H c, c)] ∧
      st2.index = [(f2.url, cf2), (f1.url, cf1)] ∧
      cf1.file_hash = some (H c) ∧ cf2.file_hash = some (H c) ∧
      cf1.url = f1.url ∧ cf2.url = f2.url) ∧
    (∀ (H' : List Nat → String) (st : CacheState) (f : PFetcher) (st' : CacheState)
      (p : String) (d : Bool),
      (st.blobs.map Prod.fst).Nodup → ensureCached H' st f = .ok (st', p, d) →
      (st'.blobs.map Prod.fst).Nodup) := by
  constructor
  · have hne1 : ¬(f1.content.isEmpty = true) := fun hh =>
      hcne (by rw [← h1]; exact List.isEmpty_iff.mp hh)
    have hne2 : ¬(f2.content.isEmpty = true) := fun hh =>
      hcne (by rw [← h2]; exact List.isEmpty_iff.mp hh)
    have hupd1 : updateCache H ⟨[], []⟩ f1 none =
        .ok (⟨[(f1.url, CachedFile.mk f1.url f1.unique_id f1.real_url (some (H f1.content)))],
          [(H f1.content, f1.content)]⟩, H f1.content) := by
      rw [updateCache, if_neg hne1]
      rfl
    have heq1 : ensureCached H ⟨[], []⟩ f1 =
        .ok (⟨[(f1.url, CachedFile.mk f1.url f1.unique_id f1.real_url (some (H f1.content)))],
          [(H f1.content, f1.content)]⟩, H f1.content, true) := by
      simp only [ensureCached, lookupIndex, assocLookup, hupd1]
    rw [h1] at heq1
    have hlk2 : lookupIndex
        (⟨[(f1.url, CachedFile.mk f1.url f1.unique_id f1.real_url (some (H c)))],
          [(H c, c)]⟩ : CacheState) f2.url = none := by
      simp only [lookupIndex, assocLookup]
      rw [if_neg hurl]
    have hbex : blobExists
        (⟨[(f1.url, CachedFile.mk f1.url f1.unique_id f1.real_url (some (H c)))],
          [(H c, c)]⟩ : CacheState) (H f2.content) = true := by
      rw [h2]
      show (assocLookup (H c) [(H c, c)]).isSome = true
      rw [assocLookup, if_pos rfl]
      rfl
    have hfil : List.filter
        (fun p => p.1 != (CachedFile.mk f2.url f2.unique_id f2.real_url (some (H c))).url)
        [(f1.url, CachedFile.mk f1.url f1.unique_id f1.real_url (some (H c)))]
        = [(f1.url, CachedFile.mk f1.url f1.unique_id f1.real_url (some (H c)))] := by
      rw [List.filter_cons, if_pos (bne_iff_ne.mpr hurl)]
      rfl
    have heq2 : ensureCached H
        (⟨[(f1.url, CachedFile.mk f1.url f1.unique_id f1.real_url (some (H c)))],
          [(H c, c)]⟩ : CacheState) f2 =
        .ok (⟨[(f2.url, CachedFile.mk f2.url f2.unique_id f2.real_url (some (H c))),
            (f1.url, CachedFile.mk f1.url f1.unique_id f1.real_url (some (H c)))],
          [(H c, c)]⟩, H c, true) := by
      simp only [ensureCached, hlk2]
      rw [updateCache, if_neg hne2]
      simp only [updateRecord, CachedFile.fromFetcher]
      rw [if_pos hbex, h2, setIndex, hfil]
    exact ⟨_, _, _, _, heq1, heq2, rfl, rfl, rfl, rfl, rfl, rfl⟩
  · intro H' st f st' p d hnd h
    exact ensureCached_nodup hnd h

/-- Witness for `blob_deduplication` with two URLs and identical non-empty
one-byte content. -/
theorem blob_deduplication_witness :
    ((⟨"u1", "u1", some "e1", [0]⟩ : PFetcher).content = [0]) ∧
    ((⟨"u2", "u2", none, [0]⟩ : PFetcher).content = [0]) ∧
    ((⟨"u1", "u1", some "e1", [0]⟩ : PFetcher).url ≠ (⟨"u2", "u2", none, [0]⟩ : PFetcher).url) ∧
    (([0] : List Nat) ≠ []) ∧
    ((∃ st1 st2 cf1 cf2,
      ensureCached demoHash ⟨[], []⟩ ⟨"u1", "u1", some "e1", [0]⟩
        = .ok (st1, demoHash [0], true) ∧
      ensureCached demoHash st1 ⟨"u2", "u2", none, [0]⟩ = .ok (st2, demoHash [0], true) ∧
      st2.blobs = [(demoHash [0], [0])] ∧
      st2.index = [("u2", cf2), ("u1", cf1)] ∧
      cf1.file_hash = some (demoHash [0]) ∧ cf2.file_hash = some (demoHash [0]) ∧
      cf1.url = "u1" ∧ cf2.url = "u2") ∧
    (∀ (H' : List Nat → String) (st : CacheState) (f : PFetcher) (st' : CacheState)
      (p : String) (d : Bool),
      (st.blobs.map Prod.fst).Nodup → ensureCached H' st f = .ok (st', p, d) →
      (st'.blobs.map Prod.fst).Nodup)) :=
  ⟨rfl, rfl, by decide, by decide,
    blob_deduplication demoHash [0] ⟨"u1", "u1", some "e1", [0]⟩ ⟨"u2", "u2", none, [0]⟩
      rfl rfl (by decide) (by decide)⟩

/-! ## Claim C4 — `S3Fetcher._get_object` error wrapping -/

/-- Claim C4 counterexample: a not-found response from the object store is a
`ClientError`, and `S3Fetcher._get_object` wraps **every** `ClientError` —
including `NoSuchKey` — into `AuthenticationError`, rather than letting
not-found failures propagate unchanged as the claim states. -/
theorem s3GetObject_wraps_not_found :
    s3GetObject (α := Unit)
        (.clientError ⟨"NoSuchKey", "NoSuchKey", "The specified key does not exist."⟩)
      = .error (.authenticationError
          "S3 authentication failed. NoSuchKey: The specified key does not exist.") ∧
    s3GetObject (α := Unit)
        (.clientError ⟨"NoSuchKey", "NoSuchKey", "The specified key does not exist."⟩)
      ≠ .error (.clientError ⟨"NoSuchKey", "NoSuchKey", "The specified key does not exist."⟩) := by
  exact ⟨rfl, by decide⟩

/-- Claim C4 (amended): `S3Fetcher._get_object` wraps **any** remote client
error — authorization failures and not-found alike — into
`AuthenticationError` carrying the original error's class name and message;
only exceptions that are not client errors propagate unchanged, and a client
error is never propagated as itself. -/
theorem s3GetObject_error_handling :
    (∀ (α : Type) (e : ClientErrorInfo), s3GetObject (α := α) (.clientError e) =
        .error (.authenticationError
          ("S3 authentication failed. " ++ e.className ++ ": " ++ e.message))) ∧
    (∀ (α : Type) (e : ClientErrorInfo), s3GetObject (α := α) (.clientError e) ≠
        .error (.clientError e)) ∧
    (∀ (α : Type) (d : String), s3GetObject (α := α) (.otherError d) = .error (.otherError d)) ∧
    (∀ (α : Type) (o : α), s3GetObject (.ok o) = .ok o) := by
  refine ⟨fun α e => rfl, fun α e h => ?_, fun α d => rfl, fun α o => rfl⟩
  rw [s3GetObject] at h
  injection h with h
  cases h

/-! ## Claim C6 — the fetcher factory's scheme table -/

/-- Claim C6: the factory maps `jenkins` to the Job-Artifact strategy,
`schemabackup` to Timestamped-Backup, `http`/`https` to HTTP, `s3` to
Object-Store, `s3prefix` to Prefix-Latest, `file` or an empty scheme to
Local-File, and fails on every other scheme with `InvalidArtifactError`
whose message names the offending artifact string. -/
theorem fetcher_scheme_table :
    (∀ a, fetcher "jenkins" a = .ok .jenkinsS3) ∧
    (∀ a, fetcher "schemabackup" a = .ok .schemaBackupS3) ∧
    (∀ a, fetcher "http" a = .ok .http) ∧
    (∀ a, fetcher "https" a = .ok .http) ∧
    (∀ a, fetcher "s3" a = .ok .s3) ∧
    (∀ a, fetcher "s3prefix" a = .ok .s3Pref) ∧
    (∀ a, fetcher "file" a = .ok .localFile) ∧
    (∀ a, fetcher "" a = .ok .localFile) ∧
    (∀ s a, s ∉ (["jenkins", "schemabackup", "http", "https", "s3", "s3prefix", "file", ""] :
        List String) →
      fetcher s a =
        .error (.invalidArtifact ("unable to find a fetcher for artifact '" ++ a ++ "'"))) := by
  refine ⟨fun a => rfl, fun a => rfl, fun a => rfl, fun a => rfl, fun a => rfl, fun a => rfl,
    fun a => rfl, fun a => rfl, fun s a h => ?_⟩
  simp only [List.mem_cons, List.not_mem_nil, or_false, not_or] at h
  obtain ⟨h1, h2, h3, h4, h5, h6, h7, h8⟩ := h
  simp [fetcher, h1, h2, h3, h4, h5, h6, h7, h8]

/-- Witness for `fetcher_scheme_table` at the unsupported scheme `ftp`. -/
theorem fetcher_scheme_table_witness :
    ("ftp" ∉ (["jenkins", "schemabackup", "http", "https", "s3", "s3prefix", "file", ""] :
        List String)) ∧
    fetcher "ftp" "ftp://host/file" =
      .error (.invalidArtifact "unable to find a fetcher for artifact 'ftp://host/file'") :=
  ⟨by decide,
    fetcher_scheme_table.2.2.2.2.2.2.2.2 "ftp" "ftp://host/file" (by decide)⟩

/-! ## Claim C9 — `SchemaBackupS3Fetcher.__init__` path validation -/

/-- Claim C9 counterexample: the constructor only checks that the stripped
path splits into exactly **three** components — it does not require them to
be non-empty.  The path `/a//b` splits into `['a', '', 'b']` and is
accepted, with an empty database component, where the claim says
construction must fail. -/
theorem schemaBackup_init_accepts_empty_component :
    pySplit '/' (pyLstrip '/' "/a//b") = ["a", "", "b"] ∧
    schemaBackupComponents "/a//b" = .ok ("a", "", "b") := by
  decide

/-- Claim C9 (amended): constructing the Timestamped-Backup strategy fails
with the format `ValueError` exactly when the path, after stripping leading
slashes, does not split on `/` into exactly three components (which may be
empty); whenever it does, construction succeeds and assigns the three
components as host, database and schema in order. -/
theorem schemaBackup_init_components_spec :
    (∀ path h d s, pySplit '/' (pyLstrip '/' path) = [h, d, s] →
        schemaBackupComponents path = .ok (h, d, s)) ∧
    (∀ path, (¬ ∃ h d s, pySplit '/' (pyLstrip '/' path) = [h, d, s]) →
        schemaBackupComponents path =
          .error (.valueError
            "URL must be in the format: schemabackup://bucket/host/database/schema")) := by
  constructor
  · intro path h d s heq
    rw [schemaBackupComponents, heq]
  · intro path hne
    rw [schemaBackupComponents]
    cases hsplit : pySplit '/' (pyLstrip '/' path) with
    | nil => rfl
    | cons x xs =>
      cases xs with
      | nil => rfl
      | cons y ys =>
        cases ys with
        | nil => rfl
        | cons z zs =>
          cases zs with
          | nil => exact absurd ⟨x, y, z, hsplit⟩ hne
          | cons w ws => rfl

/-- Witness for `schemaBackup_init_components_spec` at the three-component
path `host/db/schema`. -/
theorem schemaBackup_init_components_spec_witness :
    pySplit '/' (pyLstrip '/' "host/db/schema") = ["host", "db", "schema"] ∧
    schemaBackupComponents "host/db/schema" = .ok ("host", "db", "schema") :=
  ⟨by decide,
    schemaBackup_init_components_spec.1 "host/db/schema" "host" "db" "schema" (by decide)⟩

/-! ## Claim C7 — the pruning sweep -/

/-- Claim C7: over a cache directory whose blob subdirectory exists (the
condition under which the sweep runs), `_prune_cache` (1) keeps exactly the
well-shaped index entries whose referenced blob is on disk — every entry
with an invalid shape or a missing blob is removed; (2) afterwards every
surviving entry's referenced blob exists; (3) keeps exactly the blob files
referenced by some surviving entry — orphaned blobs are deleted; and
(4) leaves the cache root holding exactly the blob directory, the index file
and the lock file. -/
theorem prune_cache_spec (d : CacheDirState) (hblob : "blobs" ∈ d.toplevel) :
    ((pruneCache d).indexEntries = d.indexEntries.filter (fun p =>
        match p.2 with
        | .invalid => false
        | .valid h => d.blobNames.contains h)) ∧
    (∀ url h, (url, IndexEntry.valid h) ∈ (pruneCache d).indexEntries →
      h ∈ (pruneCache d).blobNames) ∧
    (∀ b, b ∈ (pruneCache d).blobNames ↔
      b ∈ d.blobNames ∧ ∃ url, (url, IndexEntry.valid b) ∈ (pruneCache d).indexEntries) ∧
    (∀ x, x ∈ (pruneCache d).toplevel ↔ x ∈ expectedToplevel) := by
  refine ⟨rfl, ?_, ?_, ?_⟩
  · intro url h hmem
    obtain ⟨hidx, hkeep⟩ := List.mem_filter.mp hmem
    have hcont : d.blobNames.contains h = true := hkeep
    show h ∈ List.filter (fun b => (blobsInUse d.indexEntries).contains b) d.blobNames
    rw [List.mem_filter]
    refine ⟨List.elem_iff.mp hcont, ?_⟩
    show ((blobsInUse d.indexEntries).contains h) = true
    exact List.elem_iff.mpr (List.mem_filterMap.mpr ⟨(url, IndexEntry.valid h), hidx, rfl⟩)
  · intro b
    constructor
    · intro hb
      obtain ⟨hbn, hcont⟩ := List.mem_filter.mp hb
      have hinuse : b ∈ blobsInUse d.indexEntries := List.elem_iff.mp hcont
      obtain ⟨a, ha, hfa⟩ := List.mem_filterMap.mp hinuse
      refine ⟨hbn, a.1, ?_⟩
      have hav : a.2 = IndexEntry.valid b := by
        cases he : a.2 with
        | invalid => rw [he] at hfa; cases hfa
        | valid h' =>
          rw [he] at hfa
          injection hfa with hfa
          rw [hfa]
      have ha' : (a.1, IndexEntry.valid b) ∈ d.indexEntries := by
        rw [← hav]
        exact ha
      refine List.mem_filter.mpr ⟨ha', ?_⟩
      show (match (IndexEntry.valid b : IndexEntry) with
        | .invalid => false
        | .valid h => d.blobNames.contains h) = true
      exact List.elem_iff.mpr hbn
    · rintro ⟨hbn, url, hmem⟩
      obtain ⟨hidx, -⟩ := List.mem_filter.mp hmem
      refine List.mem_filter.mpr ⟨hbn, ?_⟩
      show ((blobsInUse d.indexEntries).contains b) = true
      exact List.elem_iff.mpr (List.mem_filterMap.mpr ⟨(url, IndexEntry.valid b), hidx, rfl⟩)
  · intro x
    constructor
    · intro hx
      exact List.elem_iff.mp (List.mem_filter.mp hx).2
    · intro hx
      simp only [expectedToplevel, List.mem_cons, List.not_mem_nil, or_false] at hx
      rcases hx with h | h | h <;> subst h
      · exact List.mem_filter.mpr
          ⟨List.mem_cons_of_mem _ (List.mem_cons_of_mem _ hblob), by decide⟩
      · exact List.mem_filter.mpr ⟨List.mem_cons_of_mem _ (List.mem_cons_self _ _), by decide⟩
      · exact List.mem_filter.mpr ⟨List.mem_cons_self _ _, by decide⟩

/-- Witness for `prune_cache_spec` on a cache directory with one live entry,
one entry with a missing blob, one invalid entry, one orphaned blob, and one
unknown cache-root file. -/
theorem prune_cache_spec_witness :
    ("blobs" ∈ (⟨[("u1", .valid "h1"), ("u2", .valid "hX"), ("u3", .invalid)],
      ["h1", "h2"], ["blobs", "cacheindex.json", "cacheindex.lock", "junk"]⟩ :
        CacheDirState).toplevel) ∧
    (((pruneCache ⟨[("u1", .valid "h1"), ("u2", .valid "hX"), ("u3", .invalid)],
        ["h1", "h2"], ["blobs", "cacheindex.json", "cacheindex.lock", "junk"]⟩).indexEntries
      = List.filter (fun p =>
          match p.2 with
          | .invalid => false
          | .valid h => (["h1", "h2"] : List String).contains h)
          [("u1", .valid "h1"), ("u2", .valid "hX"), ("u3", .invalid)]) ∧
    (∀ url h, (url, IndexEntry.valid h) ∈
        (pruneCache ⟨[("u1", .valid "h1"), ("u2", .valid "hX"), ("u3", .invalid)],
          ["h1", "h2"], ["blobs", "cacheindex.json", "cacheindex.lock", "junk"]⟩).indexEntries →
      h ∈ (pruneCache ⟨[("u1", .valid "h1"), ("u2", .valid "hX"), ("u3", .invalid)],
          ["h1", "h2"], ["blobs", "cacheindex.json", "cacheindex.lock", "junk"]⟩).blobNames) ∧
    (∀ b, b ∈ (pruneCache ⟨[("u1", .valid "h1"), ("u2", .valid "hX"), ("u3", .invalid)],
          ["h1", "h2"], ["blobs", "cacheindex.json", "cacheindex.lock", "junk"]⟩).blobNames ↔
      b ∈ (["h1", "h2"] : List String) ∧ ∃ url, (url, IndexEntry.valid b) ∈
        (pruneCache ⟨[("u1", .valid "h1"), ("u2", .valid "hX"), ("u3", .invalid)],
          ["h1", "h2"], ["blobs", "cacheindex.json", "cacheindex.lock", "junk"]⟩).indexEntries) ∧
    (∀ x, x ∈ (pruneCache ⟨[("u1", .valid "h1"), ("u2", .valid "hX"), ("u3", .invalid)],
          ["h1", "h2"], ["blobs", "cacheindex.json", "cacheindex.lock", "junk"]⟩).toplevel ↔
      x ∈ expectedToplevel)) :=
  ⟨by decide,
    prune_cache_spec ⟨[("u1", .valid "h1"), ("u2", .valid "hX"), ("u3", .invalid)],
      ["h1", "h2"], ["blobs", "cacheindex.json", "cacheindex.lock", "junk"]⟩ (by decide)⟩

/-! ## Claim C3 — idempotence of the lazily derived properties -/

/-- Claim C3 counterexample: `LocalFileFetcher.unique_id` is **not**
memoised — it re-runs `get_file_hash` on every read, so after the local file
mutates a second read returns a different staleness token and has performed
a second hashing side effect, contradicting the claim that all three derived
properties of every variant return the memoised value without repeating the
side effect. -/
theorem localFile_unique_id_not_memoised :
    (localFileUniqueId demoHash [0, 1] (localFileUniqueId demoHash [0] LocalFileSt.start).1).2
      ≠ (localFileUniqueId demoHash [0] LocalFileSt.start).2 ∧
    (localFileUniqueId demoHash [0, 1]
        (localFileUniqueId demoHash [0] LocalFileSt.start).1).1.hashOps = 2 := by
  decide

/-- Claim C3 (amended): the content handle is lazily opened exactly once and
memoised for every variant, and the canonical URL and staleness token are
memoised for the HTTP, object-store and resolving variants — a second read
returns the first value with no further remote call even if the remote has
mutated.  The one exception is the local-file staleness token, which re-runs
the file hash on every read over the file's current contents. -/
theorem derived_properties_memoisation :
    (∀ remote remote' : Nat → HTTPResponse,
      httpUniqueId remote' (httpUniqueId remote HTTPFetcherSt.start).1
        = httpUniqueId remote HTTPFetcherSt.start) ∧
    (∀ remote : Nat → HTTPResponse,
      ((httpUniqueId remote HTTPFetcherSt.start).1).stream.effects = 1) ∧
    (∀ remote remote' : Nat → HTTPResponse,
      httpHandle remote' (httpHandle remote HTTPFetcherSt.start).1
        = httpHandle remote HTTPFetcherSt.start) ∧
    (∀ remote remote' : Nat → S3Object,
      s3UniqueId remote' (s3UniqueId remote S3FetcherSt.start).1
        = s3UniqueId remote S3FetcherSt.start) ∧
    (∀ remote : Nat → S3Object,
      ((s3UniqueId remote S3FetcherSt.start).1).object.effects = 1) ∧
    (∀ remote remote' : Nat → S3Object,
      s3Handle remote' (s3Handle remote S3FetcherSt.start).1
        = s3Handle remote S3FetcherSt.start) ∧
    (∀ res res' : Nat → String,
      resolvingPath res' (resolvingPath res ResolvingSt.start).1
        = resolvingPath res ResolvingSt.start) ∧
    (∀ file file' : Nat → List Nat,
      localFileHandle file' (localFileHandle file LocalFileSt.start).1
        = localFileHandle file LocalFileSt.start) ∧
    (∀ (H : List Nat → String) (cur : List Nat) (s : LocalFileSt),
      (localFileUniqueId H cur s).2 = H cur ∧
      (localFileUniqueId H cur s).1.hashOps = s.hashOps + 1) := by
  exact ⟨fun _ _ => rfl, fun _ => rfl, fun _ _ => rfl, fun _ _ => rfl, fun _ => rfl,
    fun _ _ => rfl, fun _ _ => rfl, fun _ _ => rfl, fun _ _ _ => ⟨rfl, rfl⟩⟩

/-! ## Claim C2 — jenkins key filtering and numeric build selection -/

/-- Claim C2 counterexample: with pattern `^app`, the key
`jobs/j/1/app.war` has a basename matching the pattern, so the claim's rule
keeps it; but the code applies the pattern to the **full key**, which does
not start with `app`, so the key is filtered out and resolution fails with
`NO_MATCHING_BUILDS` instead of selecting that build. -/
theorem jenkins_pattern_applied_to_full_key :
    claimKeepsKey matchesCaretApp "jobs/j/1/app.war" = true ∧
    List.filter matchesCaretApp ["jobs/j/1/app.war"] = [] ∧
    jenkinsGetKey "j" "^app" matchesCaretApp ["jobs/j/1/app.war"]
      = .error (.keyResolution "NO_MATCHING_BUILDS"
          "no builds found for 'j' matching '^app'") := by
  decide

/-- When the match list is non-empty, `_get_key` returns the formatted key of
its last element. -/
theorem jenkinsGetKey_ok {jobName patStr : String} {pat : String → Bool}
    {keys : List String} {l : List JenkinsParse}
    (hne : ¬(keys.isEmpty = true)) (h : getMatchingBuilds pat keys = .ok l) (hl : l ≠ []) :
    jenkinsGetKey jobName patStr pat keys =
      .ok ("jobs/" ++ (l.getLast hl).job_name ++ "/" ++ (l.getLast hl).build_number ++ "/"
        ++ (l.getLast hl).basename) := by
  rw [jenkinsGetKey, if_neg hne, h]
  cases l with
  | nil => exact absurd rfl hl
  | cons q qs => rfl

/-- Claim C2 (amended): key resolution keeps exactly the listed keys whose
**full key** matches the configurable filename pattern (the claim said
"basename"; see the counterexample).  Provided every kept key parses
structurally with an integer build number (otherwise claim C10 applies):
with a non-empty listing it raises `KeyResolution(NO_MATCHING_BUILDS)` when
no key matches, and otherwise selects a kept key whose build number is
numerically largest (integer comparison, not string comparison); over builds
`{2, 10}` build `10` wins. -/
theorem jenkins_key_selection
    (jobName patStr : String) (pat : String → Bool) (keys : List String)
    (hgood : ∀ k ∈ keys, pat k = true →
      (keyParsePattern k).isSome = true ∧ (pyInt (parseOf k).build_number).isSome = true) :
    (∃ ps, getMatchingBuilds pat keys = .ok ps ∧ ps.Perm ((keys.filter pat).map parseOf)) ∧
    (keys ≠ [] → keys.filter pat = [] →
      jenkinsGetKey jobName patStr pat keys =
        .error (.keyResolution "NO_MATCHING_BUILDS"
          ("no builds found for '" ++ jobName ++ "' matching '" ++ patStr ++ "'"))) ∧
    (keys ≠ [] → keys.filter pat ≠ [] →
      ∃ sel, sel ∈ (keys.filter pat).map parseOf ∧
        jenkinsGetKey jobName patStr pat keys =
          .ok ("jobs/" ++ sel.job_name ++ "/" ++ sel.build_number ++ "/" ++ sel.basename) ∧
        ∀ q ∈ (keys.filter pat).map parseOf, buildInt q ≤ buildInt sel) ∧
    jenkinsGetKey "job" "^.*\\.war$" matchesDefaultWarPattern
      ["jobs/job/2/a.war", "jobs/job/10/b.war"] = .ok "jobs/job/10/b.war" := by
  haveI : IsTotal (Int × JenkinsParse) (fun x y => x.1 ≤ y.1) := ⟨fun a b => le_total a.1 b.1⟩
  haveI : IsTrans (Int × JenkinsParse) (fun x y => x.1 ≤ y.1) :=
    ⟨fun _ _ _ h1 h2 => le_trans h1 h2⟩
  have h1 : exceptMap parseStep (keys.filter pat) = .ok ((keys.filter pat).map parseOf) := by
    refine exceptMap_eq_map _ _ _ (fun x hx => ?_)
    obtain ⟨hxk, hxp⟩ := List.mem_filter.mp hx
    obtain ⟨q, hq⟩ := Option.isSome_iff_exists.mp (hgood x hxk hxp).1
    rw [parseStep, hq, parseOf, hq]
    rfl
  have h2 : exceptMap intStep ((keys.filter pat).map parseOf)
      = .ok (((keys.filter pat).map parseOf).map (fun p => (buildInt p, p))) := by
    refine exceptMap_eq_map _ _ _ (fun p hp => ?_)
    obtain ⟨x, hx, hxp⟩ := List.mem_map.mp hp
    obtain ⟨hxk, hxpat⟩ := List.mem_filter.mp hx
    obtain ⟨n, hn⟩ := Option.isSome_iff_exists.mp (hgood x hxk hxpat).2
    rw [hxp] at hn
    rw [intStep, hn, buildInt, hn]
    rfl
  have hgmb : getMatchingBuilds pat keys =
      .ok ((List.insertionSort (fun x y : Int × JenkinsParse => x.1 ≤ y.1)
        (((keys.filter pat).map parseOf).map (fun p => (buildInt p, p)))).map Prod.snd) := by
    simp only [getMatchingBuilds, h1, h2]
  have hmapsnd : (((keys.filter pat).map parseOf).map
      (fun p : JenkinsParse => (buildInt p, p))).map Prod.snd = (keys.filter pat).map parseOf := by
    rw [List.map_map]
    simp [Function.comp]
  have hperm : ((List.insertionSort (fun x y : Int × JenkinsParse => x.1 ≤ y.1)
      (((keys.filter pat).map parseOf).map (fun p => (buildInt p, p)))).map Prod.snd).Perm
      ((keys.filter pat).map parseOf) := by
    have hbase := (List.perm_insertionSort (fun x y : Int × JenkinsParse => x.1 ≤ y.1)
      (((keys.filter pat).map parseOf).map (fun p => (buildInt p, p)))).map Prod.snd
    rw [hmapsnd] at hbase
    exact hbase
  refine ⟨⟨_, hgmb, hperm⟩, ?_, ?_, by decide⟩
  · intro hk hfe
    rw [jenkinsGetKey, if_neg (fun h => hk (List.isEmpty_iff.mp h))]
    have hnil : getMatchingBuilds pat keys = .ok [] := by
      simp only [getMatchingBuilds, hfe]
      rfl
    rw [hnil]
  · intro hk hfne
    have hsndne : (List.insertionSort (fun x y : Int × JenkinsParse => x.1 ≤ y.1)
        (((keys.filter pat).map parseOf).map (fun p => (buildInt p, p)))).map Prod.snd ≠ [] := by
      intro h
      have hp2 := hperm
      rw [h] at hp2
      exact hfne (List.map_eq_nil_iff.mp (List.perm_nil.mp hp2.symm))
    have hskne : List.insertionSort (fun x y : Int × JenkinsParse => x.1 ≤ y.1)
        (((keys.filter pat).map parseOf).map (fun p => (buildInt p, p))) ≠ [] := by
      intro h
      exact hsndne (by rw [h]; rfl)
    refine ⟨((List.insertionSort (fun x y : Int × JenkinsParse => x.1 ≤ y.1)
        (((keys.filter pat).map parseOf).map (fun p => (buildInt p, p)))).map Prod.snd).getLast
        hsndne, ?_, jenkinsGetKey_ok (fun h => hk (List.isEmpty_iff.mp h)) hgmb hsndne, ?_⟩
    · exact hperm.mem_iff.mp (List.getLast_mem hsndne)
    · intro q hq
      have hsorted := List.sorted_insertionSort (fun x y : Int × JenkinsParse => x.1 ≤ y.1)
        (((keys.filter pat).map parseOf).map (fun p => (buildInt p, p)))
      have hfst : ∀ pr : Int × JenkinsParse,
          pr ∈ ((keys.filter pat).map parseOf).map (fun p => (buildInt p, p)) →
          pr.1 = buildInt pr.2 := by
        intro pr hpr
        obtain ⟨p, _, hp⟩ := List.mem_map.mp hpr
        rw [← hp]
      have hqmem : (buildInt q, q) ∈ List.insertionSort (fun x y : Int × JenkinsParse => x.1 ≤ y.1)
          (((keys.filter pat).map parseOf).map (fun p => (buildInt p, p))) :=
        (List.perm_insertionSort _ _).mem_iff.mpr (List.mem_map.mpr ⟨q, hq, rfl⟩)
      have hlastpair : (List.insertionSort (fun x y : Int × JenkinsParse => x.1 ≤ y.1)
          (((keys.filter pat).map parseOf).map (fun p => (buildInt p, p)))).getLast hskne ∈
          ((keys.filter pat).map parseOf).map (fun p => (buildInt p, p)) :=
        (List.perm_insertionSort _ _).mem_iff.mp (List.getLast_mem hskne)
      have hsel : ((List.insertionSort (fun x y : Int × JenkinsParse => x.1 ≤ y.1)
          (((keys.filter pat).map parseOf).map (fun p => (buildInt p, p)))).map Prod.snd).getLast
          hsndne = ((List.insertionSort (fun x y : Int × JenkinsParse => x.1 ≤ y.1)
          (((keys.filter pat).map parseOf).map (fun p => (buildInt p, p)))).getLast hskne).2 :=
        List.getLast_map _ _ _
      rw [hsel, ← hfst _ hlastpair]
      rcases pairwise_rel_getLast hsorted hskne (buildInt q, q) hqmem with heq | hrel
      · rw [← heq]
      · exact hrel

/-- Witness for `jenkins_key_selection` over builds `{2, 10}` with the
default filename pattern: build `10` wins numeric comparison. -/
theorem jenkins_key_selection_witness :
    (∀ k ∈ ["jobs/job/2/a.war", "jobs/job/10/b.war"], matchesDefaultWarPattern k = true →
      (keyParsePattern k).isSome = true ∧ (pyInt (parseOf k).build_number).isSome = true) ∧
    jenkinsGetKey "job" "^.*\\.war$" matchesDefaultWarPattern
      ["jobs/job/2/a.war", "jobs/job/10/b.war"] = .ok "jobs/job/10/b.war" :=
  ⟨by decide,
    (jenkins_key_selection "job" "^.*\\.war$" matchesDefaultWarPattern
      ["jobs/job/2/a.war", "jobs/job/10/b.war"] (by decide)).2.2.2⟩

/-! ## Claim C8 — schemabackup timestamp selection -/

/-- Claim C8: for a non-empty enumerated timestamp set, selection with the
default `LATEST` picks the lexicographically-last enumerated timestamp (the
maximum under Python's string order); an explicitly requested timestamp that
is a member of the set (`LATEST` being the reserved default sentinel) picks
exactly that timestamp; a requested timestamp not in the set fails with
`KeyResolution(TIMESTAMP_NOT_FOUND)` whose message includes the full sorted
candidate list.  Each case is also propagated through `_get_key` (with a
successful probe). -/
theorem schemaBackup_timestamp_selection
    (bucket host database schema : String) (hosts rawTs : List String)
    (hne : rawTs ≠ []) (hhost : host ∈ hosts) :
    (∃ m, m ∈ rawTs ∧ (∀ t ∈ rawTs, pyStrLe t m = true) ∧
      selectTimestamp "LATEST" bucket (pySorted rawTs) = .ok m ∧
      schemaBackupGetKey bucket host database schema "LATEST" ⟨hosts, rawTs, fun _ => none⟩
        = .ok (schemaBackupKeyName host m database schema)) ∧
    (∀ req ∈ rawTs, req ≠ "LATEST" →
      selectTimestamp req bucket (pySorted rawTs) = .ok req ∧
      schemaBackupGetKey bucket host database schema req ⟨hosts, rawTs, fun _ => none⟩
        = .ok (schemaBackupKeyName host req database schema)) ∧
    (∀ req, req ∉ rawTs → req ≠ "LATEST" →
      selectTimestamp req bucket (pySorted rawTs) =
        .error (.keyResolution "TIMESTAMP_NOT_FOUND"
          (timestampNotFoundMsg req bucket (pySorted rawTs))) ∧
      schemaBackupGetKey bucket host database schema req ⟨hosts, rawTs, fun _ => none⟩ =
        .error (.keyResolution "TIMESTAMP_NOT_FOUND"
          (timestampNotFoundMsg req bucket (pySorted rawTs)))) := by
  haveI : IsTotal String (fun s t => pyStrLe s t = true) :=
    ⟨fun a b => lexLe_total a.data b.data⟩
  haveI : IsTrans String (fun s t => pyStrLe s t = true) :=
    ⟨fun _ _ _ h1 h2 => lexLe_trans h1 h2⟩
  have hperm : (pySorted rawTs).Perm rawTs :=
    List.perm_insertionSort (fun s t => pyStrLe s t = true) rawTs
  have hsne : pySorted rawTs ≠ [] := by
    intro h
    rw [h] at hperm
    exact hne (List.perm_nil.mp hperm.symm)
  have hsorted : List.Pairwise (fun s t => pyStrLe s t = true) (pySorted rawTs) :=
    List.sorted_insertionSort (fun s t => pyStrLe s t = true) rawTs
  have hgk_ok : ∀ req sel, selectTimestamp req bucket (pySorted rawTs) = .ok sel →
      schemaBackupGetKey bucket host database schema req ⟨hosts, rawTs, fun _ => none⟩
        = .ok (schemaBackupKeyName host sel database schema) := by
    intro req sel hsel
    simp only [schemaBackupGetKey]
    rw [if_pos hhost, if_neg (fun h => hsne (List.isEmpty_iff.mp h)), hsel]
  have hgk_err : ∀ req e, selectTimestamp req bucket (pySorted rawTs) = .error e →
      schemaBackupGetKey bucket host database schema req ⟨hosts, rawTs, fun _ => none⟩
        = .error e := by
    intro req e hsel
    simp only [schemaBackupGetKey]
    rw [if_pos hhost, if_neg (fun h => hsne (List.isEmpty_iff.mp h)), hsel]
  refine ⟨⟨(pySorted rawTs).getLast hsne, ?_, ?_, ?_, ?_⟩, ?_, ?_⟩
  · exact hperm.mem_iff.mp (List.getLast_mem hsne)
  · intro t ht
    rcases pairwise_rel_getLast hsorted hsne t (hperm.mem_iff.mpr ht) with heq | hrel
    · rw [heq]
      exact lexLe_refl _
    · exact hrel
  · rw [selectTimestamp, if_pos rfl, List.getLast?_eq_getLast _ hsne]
  · exact hgk_ok _ _ (by rw [selectTimestamp, if_pos rfl, List.getLast?_eq_getLast _ hsne])
  · intro req hreq hreqL
    have hsel : selectTimestamp req bucket (pySorted rawTs) = .ok req := by
      rw [selectTimestamp, if_neg hreqL, if_pos (hperm.mem_iff.mpr hreq)]
    exact ⟨hsel, hgk_ok _ _ hsel⟩
  · intro req hreq hreqL
    have hsel : selectTimestamp req bucket (pySorted rawTs) =
        .error (.keyResolution "TIMESTAMP_NOT_FOUND"
          (timestampNotFoundMsg req bucket (pySorted rawTs))) := by
      rw [selectTimestamp, if_neg hreqL, if_neg (fun h => hreq (hperm.mem_iff.mp h))]
    exact ⟨hsel, hgk_err _ _ hsel⟩

/-- Witness for `schemaBackup_timestamp_selection` over the spec's three
timestamps. -/
theorem schemaBackup_timestamp_selection_witness :
    ((["2018.07.20.04.30.30", "2018.07.31.04.30.30", "2018.07.30.04.30.30"] : List String) ≠ []) ∧
    ("test-host" ∈ (["test-host"] : List String)) ∧
    ((∃ m, m ∈ ["2018.07.20.04.30.30", "2018.07.31.04.30.30", "2018.07.30.04.30.30"] ∧
      (∀ t ∈ ["2018.07.20.04.30.30", "2018.07.31.04.30.30", "2018.07.30.04.30.30"],
        pyStrLe t m = true) ∧
      selectTimestamp "LATEST" "test-bucket"
        (pySorted ["2018.07.20.04.30.30", "2018.07.31.04.30.30", "2018.07.30.04.30.30"]) = .ok m ∧
      schemaBackupGetKey "test-bucket" "test-host" "test-database" "test-schema" "LATEST"
        ⟨["test-host"], ["2018.07.20.04.30.30", "2018.07.31.04.30.30", "2018.07.30.04.30.30"],
          fun _ => none⟩
        = .ok (schemaBackupKeyName "test-host" m "test-database" "test-schema")) ∧
    (∀ req ∈ ["2018.07.20.04.30.30", "2018.07.31.04.30.30", "2018.07.30.04.30.30"],
      req ≠ "LATEST" →
      selectTimestamp req "test-bucket"
        (pySorted ["2018.07.20.04.30.30", "2018.07.31.04.30.30", "2018.07.30.04.30.30"])
        = .ok req ∧
      schemaBackupGetKey "test-bucket" "test-host" "test-database" "test-schema" req
        ⟨["test-host"], ["2018.07.20.04.30.30", "2018.07.31.04.30.30", "2018.07.30.04.30.30"],
          fun _ => none⟩
        = .ok (schemaBackupKeyName "test-host" req "test-database" "test-schema")) ∧
    (∀ req, req ∉ ["2018.07.20.04.30.30", "2018.07.31.04.30.30", "2018.07.30.04.30.30"] →
      req ≠ "LATEST" →
      selectTimestamp req "test-bucket"
        (pySorted ["2018.07.20.04.30.30", "2018.07.31.04.30.30", "2018.07.30.04.30.30"]) =
        .error (.keyResolution "TIMESTAMP_NOT_FOUND"
          (timestampNotFoundMsg req "test-bucket"
            (pySorted ["2018.07.20.04.30.30", "2018.07.31.04.30.30", "2018.07.30.04.30.30"]))) ∧
      schemaBackupGetKey "test-bucket" "test-host" "test-database" "test-schema" req
        ⟨["test-host"], ["2018.07.20.04.30.30", "2018.07.31.04.30.30", "2018.07.30.04.30.30"],
          fun _ => none⟩ =
        .error (.keyResolution "TIMESTAMP_NOT_FOUND"
          (timestampNotFoundMsg req "test-bucket"
            (pySorted ["2018.07.20.04.30.30", "2018.07.31.04.30.30", "2018.07.30.04.30.30"]))))) :=
  ⟨by decide, by decide,
    schemaBackup_timestamp_selection "test-bucket" "test-host" "test-database" "test-schema"
      ["test-host"] ["2018.07.20.04.30.30", "2018.07.31.04.30.30", "2018.07.30.04.30.30"]
      (by decide) (by decide)⟩

/-! ## Claim C10 — errors outside the `KeyResolution` taxonomy are reachable -/

/-- Claim C10: whenever a jenkins-scheme listing contains a key that the
configured filename pattern accepts (applied, as in the code, to the full
key) but that either fails the structural pattern
`^jobs/(job)/(build_number)/(basename)$` or carries a build-number component
`int()` rejects, key resolution raises an `AttributeError` or `ValueError` —
not a `KeyResolutionError` — so the error branch outside the documented
taxonomy is reachable from the public interface. -/
theorem jenkins_unclassified_error_reachable
    (jobName patStr : String) (pat : String → Bool) (keys : List String)
    (hbad : ∃ k ∈ keys, pat k = true ∧
      (keyParsePattern k = none ∨ pyInt (parseOf k).build_number = none)) :
    ∃ e, jenkinsGetKey jobName patStr pat keys = .error e ∧
      (e = .attributeError ∨ ∃ m, e = .valueError m) ∧
      ∀ rc msg, e ≠ .keyResolution rc msg := by
  obtain ⟨k, hk, hpat, hbadk⟩ := hbad
  have hkf : k ∈ keys.filter pat := List.mem_filter.mpr ⟨hk, hpat⟩
  have hne : ¬(keys.isEmpty = true) := fun h =>
    List.ne_nil_of_mem hk (List.isEmpty_iff.mp h)
  -- `getMatchingBuilds` raises an AttributeError or a ValueError
  have hgmb : ∃ e, getMatchingBuilds pat keys = .error e ∧
      (e = .attributeError ∨ ∃ m, e = .valueError m) := by
    by_cases hall : ∀ k' ∈ keys.filter pat, (keyParsePattern k').isSome = true
    · -- every pattern-matching key parses: the bad key's build number is the problem
      obtain ⟨p, hp⟩ := Option.isSome_iff_exists.mp (hall k hkf)
      have hint : pyInt p.build_number = none := by
        rcases hbadk with h | h
        · rw [hp] at h; cases h
        · rw [parseOf, hp] at h; exact h
      have h1 : exceptMap parseStep (keys.filter pat)
          = .ok ((keys.filter pat).map parseOf) := by
        refine exceptMap_eq_map _ _ _ (fun x hx => ?_)
        obtain ⟨q, hq⟩ := Option.isSome_iff_exists.mp (hall x hx)
        rw [parseStep, hq, parseOf, hq]
        rfl
      have hpmem : p ∈ (keys.filter pat).map parseOf :=
        List.mem_map.mpr ⟨k, hkf, by rw [parseOf, hp]; rfl⟩
      obtain ⟨e, he, hSe⟩ := exceptMap_error intStep
        (fun e => ∃ m, e = .valueError m)
        ((keys.filter pat).map parseOf)
        (fun q _ e hq => by
          rw [intStep] at hq
          cases hqi : pyInt q.build_number with
          | some n => rw [hqi] at hq; cases hq
          | none =>
            rw [hqi] at hq
            injection hq with hq
            exact ⟨_, hq.symm⟩)
        ⟨p, hpmem, _, by rw [intStep, hint]⟩
      refine ⟨e, ?_, Or.inr hSe⟩
      simp only [getMatchingBuilds, h1, he]
    · -- some pattern-matching key fails the structural pattern
      push_neg at hall
      obtain ⟨k', hk', hk'p⟩ := hall
      have hk'none : keyParsePattern k' = none := Option.not_isSome_iff_eq_none.mp hk'p
      obtain ⟨e, he, hSe⟩ := exceptMap_error parseStep
        (fun e => e = .attributeError)
        (keys.filter pat)
        (fun x _ e hx => by
          rw [parseStep] at hx
          cases hxp : keyParsePattern x with
          | some q => rw [hxp] at hx; cases hx
          | none =>
            rw [hxp] at hx
            injection hx with hx
            exact hx.symm)
        ⟨k', hk', _, by rw [parseStep, hk'none]⟩
      refine ⟨e, ?_, Or.inl hSe⟩
      simp only [getMatchingBuilds, he]
  obtain ⟨e, he, hSe⟩ := hgmb
  refine ⟨e, ?_, hSe, ?_⟩
  · rw [jenkinsGetKey, if_neg hne, he]
  · intro rc msg hrc
    rcases hSe with h | ⟨m, h⟩ <;> rw [h] at hrc <;> cases hrc

/-- Witness for `jenkins_unclassified_error_reachable`: the key `oops.war`
matches the default filename pattern but not the structural pattern. -/
theorem jenkins_unclassified_error_reachable_witness :
    (∃ k ∈ ["jobs/j/1/x.war", "oops.war"], matchesDefaultWarPattern k = true ∧
      (keyParsePattern k = none ∨ pyInt (parseOf k).build_number = none)) ∧
    (∃ e, jenkinsGetKey "j" "^.*\\.war$" matchesDefaultWarPattern
        ["jobs/j/1/x.war", "oops.war"] = .error e ∧
      (e = .attributeError ∨ ∃ m, e = .valueError m) ∧
      ∀ rc msg, e ≠ .keyResolution rc msg) :=
  ⟨⟨"oops.war", by decide, by decide, by decide⟩,
    jenkins_unclassified_error_reachable "j" "^.*\\.war$" matchesDefaultWarPattern
      ["jobs/j/1/x.war", "oops.war"] ⟨"oops.war", by decide, by decide, by decide⟩⟩

end Aodnfetcher
